import Mathlib

/-!
Shallow embedding of `update.py` (esdtracker): a JSON-backed location store,
a redirect resolver, a CAB downloader/extractor pipeline and the coordinating
`main`, together with theorems checking the repository's specification.

External effects (network, filesystem, subprocesses, the clock) are passed in
as explicit oracle values; the Python data flow itself is translated directly.
-/

set_option maxRecDepth 4000

namespace Esdtracker

/-- Characters of a Python string, modelled as a list. -/
abbrev Chars := List Char

/-- Python exceptions that the modelled code can raise past its own handlers. -/
inductive PyErr
  | typeError
  | attrError
  | keyError
  deriving DecidableEq

/-- JSON values as handled by Python's `json` module (numbers restricted to
integers; the program only ever stores strings). -/
inductive Json
  | null
  | bool (b : Bool)
  | num (n : Int)
  | str (s : String)
  | arr (elems : List Json)
  | obj (kvs : List (String × Json))

/-- Whether a JSON value is a dict. -/
def Json.isObj : Json → Bool
  | .obj _ => true
  | _ => false

/-- Whitespace as skipped by the JSON parser. -/
def isWs (c : Char) : Bool := c == ' ' || c == '\n' || c == '\t' || c == '\r'

/-- Drop leading JSON whitespace. -/
def skipWs : Chars → Chars
  | [] => []
  | c :: cs => if isWs c then skipWs cs else c :: cs

/-- Assignment `d[k] = v` on a Python dict modelled as an association list:
an existing key keeps its position and gets the new value, a new key is
appended at the end (CPython insertion order). -/
def pySet (kvs : List (String × Json)) (k : String) (v : Json) : List (String × Json) :=
  if kvs.any (fun kv => kv.1 == k) then
    kvs.map (fun kv => if kv.1 == k then (k, v) else kv)
  else kvs ++ [(k, v)]

/-- Building a dict from parsed members in order, as Python's json decoder
does (later duplicate keys overwrite earlier ones). -/
def objFold (kvs : List (String × Json)) : List (String × Json) :=
  kvs.foldl (fun acc kv => pySet acc kv.1 kv.2) []

/-- Value of a hexadecimal digit. -/
def hexVal (c : Char) : Option Nat :=
  if '0' ≤ c ∧ c ≤ '9' then some (c.toNat - 48)
  else if 'a' ≤ c ∧ c ≤ 'f' then some (c.toNat - 87)
  else if 'A' ≤ c ∧ c ≤ 'F' then some (c.toNat - 55)
  else none

/-- Single-character JSON string escapes. -/
def unescapeChar (c : Char) : Option Char :=
  if c = '"' then some '"'
  else if c = '\\' then some '\\'
  else if c = '/' then some '/'
  else if c = 'n' then some '\n'
  else if c = 't' then some '\t'
  else if c = 'r' then some '\r'
  else if c = 'b' then some (Char.ofNat 8)
  else if c = 'f' then some (Char.ofNat 12)
  else none

/-- Parse the body of a JSON string literal after the opening quote, returning
the decoded characters and the input after the closing quote. Raw control
characters are rejected (strict mode); `\uXXXX` escapes for surrogate code
points are not modelled. -/
def parseStrBody : Chars → Option (Chars × Chars)
  | [] => none
  | c :: cs =>
    if c = '"' then some ([], cs)
    else if c = '\\' then
      match cs with
      | [] => none
      | e :: cs2 =>
        if e = 'u' then
          match cs2 with
          | h1 :: h2 :: h3 :: h4 :: cs3 =>
            match hexVal h1, hexVal h2, hexVal h3, hexVal h4 with
            | some a, some b, some c2, some d =>
              let n := ((a * 16 + b) * 16 + c2) * 16 + d
              if n < 0xd800 ∨ 0xe000 ≤ n then
                match parseStrBody cs3 with
                | some (s, r) => some (Char.ofNat n :: s, r)
                | none => none
              else none
            | _, _, _, _ => none
          | _ => none
        else
          match unescapeChar e with
          | some u =>
            match parseStrBody cs2 with
            | some (s, r) => some (u :: s, r)
            | none => none
          | none => none
    else if c.toNat < 0x20 then none
    else
      match parseStrBody cs with
      | some (s, r) => some (c :: s, r)
      | none => none

/-- Numeric value of a digit string. -/
def digitsToNat (cs : Chars) : Nat := cs.foldl (fun a c => a * 10 + (c.toNat - 48)) 0

mutual

/-- Recursive-descent JSON value parser with a fuel bound (each recursive call
consumes at least one input character, so fuel beyond the input length never
runs out). -/
def parseValue : Nat → Chars → Option (Json × Chars)
  | 0, _ => none
  | fuel + 1, cs =>
    match skipWs cs with
    | '"' :: r =>
      match parseStrBody r with
      | some (s, r2) => some (.str (String.mk s), r2)
      | none => none
    | '{' :: r =>
      match skipWs r with
      | '}' :: r2 => some (.obj [], r2)
      | _ =>
        match parseMembers fuel r with
        | some (kvs, r2) => some (.obj (objFold kvs), r2)
        | none => none
    | '[' :: r =>
      match skipWs r with
      | ']' :: r2 => some (.arr [], r2)
      | _ =>
        match parseItems fuel r with
        | some (vs, r2) => some (.arr vs, r2)
        | none => none
    | 't' :: 'r' :: 'u' :: 'e' :: r => some (.bool true, r)
    | 'f' :: 'a' :: 'l' :: 's' :: 'e' :: r => some (.bool false, r)
    | 'n' :: 'u' :: 'l' :: 'l' :: r => some (.null, r)
    | '-' :: c :: r =>
      if c.isDigit then
        let p := (c :: r).span Char.isDigit
        some (.num (-(digitsToNat p.1 : Int)), p.2)
      else none
    | c :: r =>
      if c.isDigit then
        let p := (c :: r).span Char.isDigit
        some (.num (digitsToNat p.1), p.2)
      else none
    | [] => none

/-- Parse the members of a non-empty JSON object, starting after the opening
brace, up to and including the closing brace. -/
def parseMembers : Nat → Chars → Option (List (String × Json) × Chars)
  | 0, _ => none
  | fuel + 1, cs =>
    match skipWs cs with
    | '"' :: r =>
      match parseStrBody r with
      | some (k, r1) =>
        match skipWs r1 with
        | ':' :: r2 =>
          match parseValue fuel r2 with
          | some (v, r3) =>
            match skipWs r3 with
            | ',' :: r4 =>
              match parseMembers fuel r4 with
              | some (kvs, r5) => some ((String.mk k, v) :: kvs, r5)
              | none => none
            | '}' :: r4 => some ([(String.mk k, v)], r4)
            | _ => none
          | none => none
        | _ => none
      | none => none
    | _ => none

/-- Parse the elements of a non-empty JSON array, starting after the opening
bracket, up to and including the closing bracket. -/
def parseItems : Nat → Chars → Option (List Json × Chars)
  | 0, _ => none
  | fuel + 1, cs =>
    match parseValue fuel cs with
    | some (v, r) =>
      match skipWs r with
      | ',' :: r2 =>
        match parseItems fuel r2 with
        | some (vs, r3) => some (v :: vs, r3)
        | none => none
      | ']' :: r2 => some ([v], r2)
      | _ => none
    | none => none

end

/-- Model of `json.load`: parse one value and require only whitespace after
it. Fractional and exponent number forms are not modelled. -/
def parseJson (s : String) : Option Json :=
  match parseValue (s.length + 2) s.data with
  | some (j, rest) =>
    match skipWs rest with
    | [] => some j
    | _ => none
  | none => none

/-- Characters that `json.dump` writes verbatim inside a string literal:
printable ASCII other than the quote and the backslash. -/
def plainChar (c : Char) : Bool :=
  0x20 ≤ c.toNat && c.toNat < 0x7f && c != '"' && c != '\\'

/-- All characters of the string are written verbatim by `json.dump`. -/
def plainStr (s : String) : Bool := s.data.all plainChar

/-- Lower-case hexadecimal digit. -/
def hexDigitChar (n : Nat) : Char :=
  if n < 10 then Char.ofNat (48 + n) else Char.ofNat (87 + n)

/-- One character of a JSON string literal as Python's `json.dump` writes it
(default `ensure_ascii=True` escaping). -/
def escChar (c : Char) : Chars :=
  if c = '"' then ['\\', '"']
  else if c = '\\' then ['\\', '\\']
  else if c = '\n' then ['\\', 'n']
  else if c = '\t' then ['\\', 't']
  else if c = '\r' then ['\\', 'r']
  else if c = Char.ofNat 8 then ['\\', 'b']
  else if c = Char.ofNat 12 then ['\\', 'f']
  else if c.toNat < 0x20 || 0x7f ≤ c.toNat then
    ['\\', 'u', hexDigitChar (c.toNat / 4096 % 16), hexDigitChar (c.toNat / 256 % 16),
      hexDigitChar (c.toNat / 16 % 16), hexDigitChar (c.toNat % 16)]
  else [c]

/-- JSON-escape the characters of a string. -/
def escape (s : String) : Chars := s.data.foldr (fun c acc => escChar c ++ acc) []

/-- A quoted JSON string literal. -/
def qstr (s : String) : Chars := '"' :: (escape s ++ ['"'])

/-- One indentation level (`indent=4`). -/
def ind4 : Chars := [' ', ' ', ' ', ' ']

/-- Two indentation levels. -/
def ind8 : Chars := [' ', ' ', ' ', ' ', ' ', ' ', ' ', ' ']

/-- The persisted record: product name → (redirect URL → first-seen timestamp). -/
abbrev Record := List (String × List (String × String))

/-- The JSON value a record denotes. -/
def recordToJson (r : Record) : Json :=
  .obj (r.map (fun pi => (pi.1, Json.obj (pi.2.map (fun ut => (ut.1, Json.str ut.2))))))

/-- One `"url": "timestamp"` line at the inner indentation level. -/
def serEntry (u t : String) : Chars := ind8 ++ (qstr u ++ (':' :: ' ' :: qstr t))

/-- The inner entries of a product's dict, each line separated by `,\n`, ending
with the dict's closing brace at the outer indentation level. -/
def serInnerTail : List (String × String) → Chars
  | [] => []
  | [ut] => serEntry ut.1 ut.2 ++ ('\n' :: (ind4 ++ ['}']))
  | ut :: rest => serEntry ut.1 ut.2 ++ (',' :: '\n' :: serInnerTail rest)

/-- A product's inner dict as `json.dump` writes it with `indent=4`. -/
def serInner (kvs : List (String × String)) : Chars :=
  match kvs with
  | [] => ['{', '}']
  | _ => '{' :: '\n' :: serInnerTail kvs

/-- One `"product": {...}` item of the top-level dict. -/
def serProd (p : String) (kvs : List (String × String)) : Chars :=
  ind4 ++ (qstr p ++ (':' :: ' ' :: serInner kvs))

/-- The top-level items, ending with the closing brace in column zero. -/
def serTopTail : Record → Chars
  | [] => []
  | [pi] => serProd pi.1 pi.2 ++ ('\n' :: ['}'])
  | pi :: rest => serProd pi.1 pi.2 ++ (',' :: '\n' :: serTopTail rest)

/-- The full serialized record. -/
def serRecord (r : Record) : Chars :=
  match r with
  | [] => ['{', '}']
  | _ => '{' :: '\n' :: serTopTail r

/-- Model of `save_data`: `json.dump(data, f, indent=4)` applied to a
record-shaped value; the result is the exact file contents written. -/
def save_data (r : Record) : String := String.mk (serRecord r)

/-- Path of the state file. -/
def JSON_FILE : String := "locations.json"

/-- Root output directory. -/
def BASE_DIR : String := "products"

/-- Size of the worker pool. -/
def MAX_WORKERS : Nat := 5

/-- Model of `load_existing_data`: the backing file is `none` when absent and
`some s` when it holds the text `s`. A `json.JSONDecodeError` is caught (a
warning is printed) and yields the empty dict; a successful parse is returned
as is, with no shape validation. -/
def load_existing_data (file : Option String) : Json :=
  match file with
  | none => .obj []
  | some s =>
    match parseJson s with
    | some j => j
    | none => .obj []

/-- Outcome of the redirect probe (`requests.head` with redirects disabled)
for one product: the request raised a `requests.RequestException` with message
`msg`, or it returned a response with no `Location` header, or one whose
`Location` header holds `loc`. -/
inductive ProbeOutcome
  | exc (msg : String)
  | noHeader
  | header (loc : String)

/-- Whether `pat` is a prefix of the second list. -/
def listStartsWith : Chars → Chars → Bool
  | [], _ => true
  | _ :: _, [] => false
  | p :: ps, c :: cs => p == c && listStartsWith ps cs

/-- Whether `pat` occurs contiguously in the second list (Python `in` on
strings). -/
def listContainsSub (pat : Chars) : Chars → Bool
  | [] => listStartsWith pat []
  | c :: cs => listStartsWith pat (c :: cs) || listContainsSub pat cs

/-- Python membership test `k in d` for a string `k`. -/
def pyContains (d : Json) (k : String) : Except PyErr Bool :=
  match d with
  | .obj kvs => .ok (kvs.any (fun kv => kv.1 == k))
  | .arr xs => .ok (xs.any (fun j => match j with | .str s => s == k | _ => false))
  | .str s => .ok (listContainsSub k.data s.data)
  | _ => .error .typeError

/-- Python subscript read `d[k]` for a string key. -/
def pyGetItem (d : Json) (k : String) : Except PyErr Json :=
  match d with
  | .obj kvs =>
    match kvs.find? (fun kv => kv.1 == k) with
    | some kv => .ok kv.2
    | none => .error .keyError
  | _ => .error .typeError

/-- Python subscript write `d[k] = v` for a string key. -/
def pySetItem (d : Json) (k : String) (v : Json) : Except PyErr Json :=
  match d with
  | .obj kvs => .ok (.obj (pySet kvs k v))
  | _ => .error .typeError

/-- First-match association lookup, the view of a Python dict read. -/
def jLookup (kvs : List (String × Json)) (k : String) : Option Json :=
  (kvs.find? (fun kv => kv.1 == k)).map (fun kv => kv.2)

/-- The value recorded under product `p` and key `u` of a state value. -/
def lookup2 (j : Json) (p u : String) : Option Json :=
  match j with
  | .obj kvs =>
    match jLookup kvs p with
    | some (.obj inner) => jLookup inner u
    | _ => none
  | _ => none

/-- Pairwise distinctness of a key list. -/
def allDistinct : List String → Bool
  | [] => true
  | k :: ks => !ks.contains k && allDistinct ks

/-- Well-formedness of the loaded state in a normal run: a dict all of whose
values are dicts. -/
def wfJson (j : Json) : Bool :=
  match j with
  | .obj kvs => kvs.all (fun kv => kv.2.isObj)
  | _ => false

/-- One iteration of the resolver loop in `main` for product `osName`: a
`requests.RequestException` is caught; a response whose `Location` header is
missing or empty (the walrus condition is a truthiness test) leaves the data
untouched; otherwise the target is inserted if not yet recorded. `TypeError`
from subscripting a non-dict is not a `RequestException` and propagates. -/
def resolveStep (data : Json) (osName : String) (probe : ProbeOutcome) (now : String) :
    Except PyErr Json :=
  match probe with
  | .exc _ => .ok data
  | .noHeader => .ok data
  | .header loc =>
    if loc = "" then .ok data
    else do
      let mem ← pyContains data osName
      let data1 ← if mem then pure data else pySetItem data osName (.obj [])
      let inner ← pyGetItem data1 osName
      let mem2 ← pyContains inner loc
      if mem2 then pure data1
      else do
        let inner2 ← pySetItem inner loc (.str now)
        pySetItem data1 osName inner2

/-- The lines the resolver loop prints for one product (the print lock makes
each line atomic; the exception text is appended on the error paths). -/
def resolveStepLog (data : Json) (osName : String) (probe : ProbeOutcome) : List String :=
  match probe with
  | .exc msg => ["Error fetching " ++ osName ++ " URL: " ++ msg]
  | .noHeader => ["No Location header found for " ++ osName ++ "."]
  | .header loc =>
    if loc = "" then ["No Location header found for " ++ osName ++ "."]
    else
      match data with
      | .obj kvs =>
        match kvs.find? (fun kv => kv.1 == osName) with
        | some kv =>
          match kv.2 with
          | .obj inner =>
            if inner.any (fun uv => uv.1 == loc) then []
            else ["Added new URL for " ++ osName ++ ": " ++ loc]
          | _ => []
        | none => ["Added new URL for " ++ osName ++ ": " ++ loc]
      | _ => []

/-- The tracked products and their fixed redirect-origin URLs. -/
def URLS : List (String × String) :=
  [("Win10", "https://go.microsoft.com/fwlink/?LinkId=841361"),
   ("Win11", "https://go.microsoft.com/fwlink/?LinkId=2156292")]

/-- The sequential resolver loop over all tracked products; `probes` and
`clockIso` give, per product name, the probe outcome and the
`datetime.now().isoformat()` string at that iteration. -/
def runResolver (data : Json) (probes : String → ProbeOutcome) (clockIso : String → String) :
    Except PyErr Json :=
  URLS.foldlM (fun d pu => resolveStep d pu.1 (probes pu.1) (clockIso pu.1)) data

/-- A `datetime.datetime` value (naive local time). -/
structure DateTime where
  year : Nat
  month : Nat
  day : Nat
  hour : Nat
  minute : Nat
  second : Nat
  usec : Nat
  deriving DecidableEq

/-- The field ranges `datetime` guarantees. -/
def DateTime.valid (d : DateTime) : Bool :=
  1 ≤ d.year && d.year ≤ 9999 && 1 ≤ d.month && d.month ≤ 12 && 1 ≤ d.day && d.day ≤ 31 &&
    d.hour ≤ 23 && d.minute ≤ 59 && d.second ≤ 59 && d.usec ≤ 999999

/-- Zero-padded two-digit rendering of `n < 100`. -/
def pad2 (n : Nat) : Chars := [Char.ofNat (48 + n / 10 % 10), Char.ofNat (48 + n % 10)]

/-- Zero-padded four-digit rendering of `n < 10000`. -/
def pad4 (n : Nat) : Chars :=
  [Char.ofNat (48 + n / 1000 % 10), Char.ofNat (48 + n / 100 % 10),
   Char.ofNat (48 + n / 10 % 10), Char.ofNat (48 + n % 10)]

/-- Zero-padded six-digit rendering of `n < 1000000`. -/
def pad6 (n : Nat) : Chars :=
  [Char.ofNat (48 + n / 100000 % 10), Char.ofNat (48 + n / 10000 % 10),
   Char.ofNat (48 + n / 1000 % 10), Char.ofNat (48 + n / 100 % 10),
   Char.ofNat (48 + n / 10 % 10), Char.ofNat (48 + n % 10)]

/-- Model of `datetime.isoformat()`: `YYYY-MM-DDTHH:MM:SS` with a `.ffffff`
microsecond suffix exactly when the microsecond field is nonzero. -/
def isoformat (d : DateTime) : String :=
  String.mk (pad4 d.year ++ ('-' :: pad2 d.month) ++ ('-' :: pad2 d.day) ++
    ('T' :: pad2 d.hour) ++ (':' :: pad2 d.minute) ++ (':' :: pad2 d.second) ++
    (if d.usec = 0 then [] else '.' :: pad6 d.usec))

/-- Consume exactly `n` decimal digits. -/
def eatDigits : Nat → Chars → Option Chars
  | 0, cs => some cs
  | n + 1, c :: cs => if c.isDigit then eatDigits n cs else none
  | _ + 1, [] => none

/-- Consume one expected character. -/
def eatChar (ch : Char) : Chars → Option Chars
  | c :: cs => if c = ch then some cs else none
  | [] => none

/-- Whether a string parses under the ISO-8601 date-time format that
`datetime.isoformat()` emits (with optional fractional seconds). -/
def isISO8601 (s : String) : Bool :=
  (do
    let r ← eatDigits 4 s.data
    let r ← eatChar '-' r
    let r ← eatDigits 2 r
    let r ← eatChar '-' r
    let r ← eatDigits 2 r
    let r ← eatChar 'T' r
    let r ← eatDigits 2 r
    let r ← eatChar ':' r
    let r ← eatDigits 2 r
    let r ← eatChar ':' r
    let r ← eatDigits 2 r
    match r with
    | [] => some ()
    | '.' :: r2 =>
      let r3 ← eatDigits 6 r2
      match r3 with
      | [] => some ()
      | _ => none
    | _ => none).isSome

/-- Outcome of the streaming download for one URL: either the request or the
status check raised before the output file was opened, or the body streamed
`written` bytes into the file and then either finished or raised mid-stream. -/
inductive DLOutcome
  | raiseEarly
  | stream (written : List Nat) (raisedMidStream : Bool)

/-- Model of `download_cab`: returns the Python return value and the content
of the output file afterwards (`none` when the file was never created; the
path is assumed not to exist beforehand). Every `requests.RequestException`
is caught and reported as `false`. -/
def download_cab (o : DLOutcome) : Bool × Option (List Nat) :=
  match o with
  | .raiseEarly => (false, none)
  | .stream written raised => (if raised then false else true, some written)

/-- Outcome of the external extraction process: clean exit, abnormal exit or
timeout, or the tool binary being absent (`FileNotFoundError`). -/
inductive ExtOutcome
  | ok
  | toolError
  | toolMissing

/-- Model of `extract_cab_windows`: `CalledProcessError` and `TimeoutExpired`
are caught and reported as `false`; a missing `expand` binary raises
`FileNotFoundError`, which its handler does not cover. -/
def extract_cab_windows (o : ExtOutcome) : Except Unit Bool :=
  match o with
  | .ok => .ok true
  | .toolError => .ok false
  | .toolMissing => .error ()

/-- Model of `extract_cab_unix`: all three failure exceptions are caught, but
the handler falls through without a return statement, so the function returns
`None` (here `none`) instead of `False` on failure. -/
def extract_cab_unix (o : ExtOutcome) : Except Unit (Option Bool) :=
  match o with
  | .ok => .ok (some true)
  | .toolError => .ok none
  | .toolMissing => .ok none

/-- Host platform, as tested by `sys.platform.startswith("win")`. -/
inductive Platform
  | windows
  | unix

/-- Environment oracle for one work item: whether some unexpected exception is
raised before the download (e.g. by `os.makedirs`), the download outcome, and
the extraction outcome. -/
structure ItemEnv where
  preExc : Bool
  dl : DLOutcome
  ext : ExtOutcome

/-- Python `url.split('/')` accumulator. -/
def splitSlashAux : Chars → Chars → List Chars
  | [], cur => [cur.reverse]
  | c :: cs, cur => if c = '/' then cur.reverse :: splitSlashAux cs [] else splitSlashAux cs (c :: cur)

/-- Python `url.split('/')`: every separator splits, empty pieces are kept. -/
def splitSlash (s : String) : List Chars := splitSlashAux s.data []

/-- Python slice `l[-5:]`. -/
def pyLastFive (l : List Chars) : List Chars :=
  if l.length ≤ 5 then l else l.drop (l.length - 5)

/-- Python `"_".join(pieces)`. -/
def joinUnderscore : List Chars → Chars
  | [] => []
  | [p] => p
  | p :: rest => p ++ ('_' :: joinUnderscore rest)

/-- Python `path_suffix.endswith(".cab")` followed by `path_suffix[:-4]`. -/
def stripCab (cs : Chars) : Chars :=
  if 4 ≤ cs.length ∧ cs.drop (cs.length - 4) = ['.', 'c', 'a', 'b'] then
    cs.take (cs.length - 4)
  else cs

/-- The filesystem token `process_url` derives from a URL:
`"_".join(url.split('/')[-5:])` with a trailing `".cab"` removed. -/
def path_suffix (url : String) : String :=
  String.mk (stripCab (joinUnderscore (pyLastFive (splitSlash url))))

/-- POSIX `os.path.join` for two components. -/
def pyJoin2 (a b : String) : String :=
  if b.data.head? = some '/' then b
  else if a = "" then b
  else if a.data.getLast? = some '/' then a ++ b
  else a ++ "/" ++ b

/-- The output directory of a work item. -/
def outputDir (osName url : String) : String :=
  pyJoin2 (pyJoin2 BASE_DIR osName) (path_suffix url)

/-- The archive path of a work item (always the fixed name `archive.cab`
inside its output directory). -/
def cabPath (osName url : String) : String := pyJoin2 (outputDir osName url) "archive.cab"

/-- Model of `os.makedirs(d, exist_ok=True)` on a set of existing directories:
total (a pre-existing directory is not an error), and adds the directory. -/
def makedirs (fs : List String) (d : String) : List String :=
  if d ∈ fs then fs else d :: fs

/-- Result of processing one work item: the Python return value of
`process_url` (`True`, `False` or `None`) and whether the downloaded archive
file is still on disk afterwards (its path assumed absent beforehand). -/
structure ItemOutcome where
  result : Option Bool
  archiveLeft : Bool
  deriving DecidableEq

/-- Model of `process_url` for a work item with oracle `env`: any unexpected
exception is caught at the item boundary and turned into `False`; a failed
download returns `False` with whatever the file holds; the platform extractor
runs next, an exception escaping it is caught by the item handler, and the
archive is removed only when the overall result is truthy `True`. -/
def process_url (plat : Platform) (env : ItemEnv) : ItemOutcome :=
  if env.preExc then ⟨some false, false⟩
  else
    match download_cab env.dl with
    | (false, content) => ⟨some false, content.isSome⟩
    | (true, _) =>
      let extRes : Except Unit (Option Bool) :=
        match plat with
        | .windows =>
          match extract_cab_windows env.ext with
          | .ok b => .ok (some b)
          | .error e => .error e
        | .unix => extract_cab_unix env.ext
      match extRes with
      | .error _ => ⟨some false, true⟩
      | .ok success => if success = some true then ⟨some true, false⟩ else ⟨success, true⟩

/-- The flattening of the loaded data into work items,
`[(os_name, url) for os_name, urls_dict in data.items() for url in urls_dict]`:
`.items()` requires a dict (else `AttributeError`), and iterating each inner
value yields its keys for a dict, its elements for a list, its characters for
a string, and `TypeError` otherwise. -/
def buildUrlList (data : Json) : Except PyErr (List (String × Json)) :=
  match data with
  | .obj kvs =>
    kvs.foldlM (fun acc kv => do
      let urls ← (match kv.2 with
        | .obj inner => .ok (inner.map (fun uv => Json.str uv.1))
        | .arr xs => .ok xs
        | .str s => .ok (s.data.map (fun c => Json.str (String.mk [c])))
        | _ => .error PyErr.typeError)
      pure (acc ++ urls.map (fun u => (kv.1, u)))) []
  | _ => .error .attrError

/-- Processing one flattened item inside the pool: a non-string URL makes
`url.split('/')` raise, which the item-level handler converts to `False`. -/
def processItem (plat : Platform) (env : String → String → ItemEnv) :
    String × Json → Option Bool
  | (p, .str u) => (process_url plat (env p u)).result
  | (_, _) => some false

/-- Python `sum(results)` over the pool's return values: `True` counts one,
`False` counts zero, and `None` raises `TypeError`. -/
def sumPy (rs : List (Option Bool)) : Except PyErr Nat :=
  rs.foldlM (fun acc r =>
    match r with
    | some true => .ok (acc + 1)
    | some false => .ok acc
    | none => .error PyErr.typeError) 0

/-- The final summary line `main` prints. -/
def summaryLine (k n : Nat) : String :=
  "Processing complete. Successful: " ++ toString k ++ "/" ++ toString n

/-- Model of `main`: load the state file, run the resolver loop, save, flatten
into work items, process every item through the pool, and print the summary.
The value returned is the summary line; an uncaught Python exception is an
`Except.error`. (Writing the saved file has no further observable effect
here; `save_data` models its contents for record-shaped states.) -/
def main (file : Option String) (probes : String → ProbeOutcome)
    (clockIso : String → String) (plat : Platform) (env : String → String → ItemEnv) :
    Except PyErr String := do
  let data0 := load_existing_data file
  let data ← runResolver data0 probes clockIso
  let items ← buildUrlList data
  let results := items.map (fun pu => processItem plat env pu)
  let k ← sumPy results
  pure (summaryLine k results.length)

/-- All URLs and timestamps of an inner mapping are written verbatim by the
serializer. -/
def plainInner (kvs : List (String × String)) : Bool :=
  kvs.all (fun ut => plainStr ut.1 && plainStr ut.2)

/-- All strings of a record are written verbatim by the serializer. -/
def plainRecord (r : Record) : Bool :=
  r.all (fun pi => plainStr pi.1 && plainInner pi.2)

/-- All key sets of a record are duplicate-free (as Python dicts guarantee). -/
def nodupRecord (r : Record) : Bool :=
  allDistinct (r.map (fun pi => pi.1)) &&
    r.all (fun pi => allDistinct (pi.2.map (fun ut => ut.1)))

/-- Spec-side token, modelled from the spec's wording: the last five
'/'-separated path segments of the URL joined by underscores, with a trailing
".cab" token stripped if present (formulated through list reversal, unlike
the length-arithmetic slicing of the source). -/
def specSubdirToken (url : String) : String :=
  let token := joinUnderscore ((splitSlash url).reverse.take 5).reverse
  if List.isPrefixOf ['b', 'a', 'c', '.'] token.reverse then
    String.mk (token.reverse.drop 4).reverse
  else String.mk token

/-- Oracle for the C1 scenario: two recorded URLs, the download succeeds for
both, extraction fails for the second. -/
def envC1 : String → String → ItemEnv := fun _ u =>
  if u = "u2" then ⟨false, .stream [] false, .toolError⟩ else ⟨false, .stream [] false, .ok⟩

/-- State file for the C1 scenario. -/
def fileC1 : Option String := some (save_data [("Win10", [("u1", "t1"), ("u2", "t2")])])

/-! Theorems. -/

/-- Helper for the aggregate count: a `False` result contributes nothing to
`sum(results)` wherever it occurs. -/
theorem sumPy_false_elim (post pre : List (Option Bool)) (acc : Nat) :
    List.foldlM (fun acc r =>
      match r with
      | some true => Except.ok (acc + 1)
      | some false => Except.ok acc
      | none => Except.error PyErr.typeError) acc (pre ++ some false :: post) =
    List.foldlM (fun acc r =>
      match r with
      | some true => Except.ok (acc + 1)
      | some false => Except.ok acc
      | none => Except.error PyErr.typeError) acc (pre ++ post) := by
  induction pre generalizing acc with
  | nil => rfl
  | cons r pre ih =>
    match r with
    | some true => exact ih (acc + 1)
    | some false => exact ih acc
    | none => rfl

/-- C9: the token derivation is not injective: URLs differing only before
their last five path segments, or only by the trailing `.cab`, map to the
same output directory, hence to the same fixed `archive.cab` path. -/
theorem c9_token_derivation_not_injective :
    ("http://h/a/b/c/d/e" : String) ≠ "https://x/y/a/b/c/d/e" ∧
    path_suffix "http://h/a/b/c/d/e" = path_suffix "https://x/y/a/b/c/d/e" ∧
    cabPath "Win10" "http://h/a/b/c/d/e" = cabPath "Win10" "https://x/y/a/b/c/d/e" ∧
    ("http://h/a/b/c/d/e" : String) ≠ "http://h/a/b/c/d/e.cab" ∧
    path_suffix "http://h/a/b/c/d/e" = path_suffix "http://h/a/b/c/d/e.cab" ∧
    cabPath "Win10" "http://h/a/b/c/d/e" = cabPath "Win10" "http://h/a/b/c/d/e.cab" := by
  exact ⟨by decide, rfl, rfl, by decide, rfl, rfl⟩

/-- C5 (code bug): with a successful download and a failed extraction the
archive is kept on both platforms, and on Windows the item's result is
`False`; but on Unix the missing `return False` in `extract_cab_unix` makes
the result `None` instead of the boolean failure value. -/
theorem c5_extraction_failure_result :
    process_url .windows ⟨false, .stream [] false, .toolError⟩ = ⟨some false, true⟩ ∧
    process_url .unix ⟨false, .stream [] false, .toolError⟩ = ⟨none, true⟩ ∧
    process_url .unix ⟨false, .stream [] false, .toolMissing⟩ = ⟨none, true⟩ := by
  exact ⟨rfl, rfl, rfl⟩

/-- C1 (code bug): both work items are attempted and the item results are
computed (`[True, None]` on Unix), but `sum(results)` raises `TypeError` on
the `None` produced by `extract_cab_unix`'s fall-through failure path, so the
run dies before printing any summary; the same scenario on Windows prints
`1/2` as the specification requires. -/
theorem c1_unix_run_crashes_before_summary :
    buildUrlList (load_existing_data fileC1) =
      .ok [("Win10", .str "u1"), ("Win10", .str "u2")] ∧
    [("Win10", Json.str "u1"), ("Win10", Json.str "u2")].map
      (fun pu => processItem .unix envC1 pu) = [some true, none] ∧
    sumPy [some true, none] = .error .typeError ∧
    main fileC1 (fun _ => .noHeader) (fun _ => "now") .unix envC1 = .error .typeError ∧
    main fileC1 (fun _ => .noHeader) (fun _ => "now") .windows envC1 =
      .ok (summaryLine 1 2) := by
  exact ⟨rfl, rfl, rfl, rfl, rfl⟩

/-- C3 counterexample: a network failure in the middle of the body stream
(here after one chunk of one byte) returns `False`, yet the partially written
`archive.cab` is left on disk, contradicting the claim that no archive file
is left behind for a failed download. -/
theorem c3_counterexample_partial_file_left :
    download_cab (.stream [7] true) = (false, some [7]) ∧
    process_url .unix ⟨false, .stream [7] true, .ok⟩ = ⟨some false, true⟩ := by
  exact ⟨rfl, rfl⟩

/-- C3 amended: a failed download always yields result `False` and is excluded
from the aggregate count; no archive file exists afterwards when the failure
happened before the body stream opened the output file, while a mid-stream
failure leaves the partial file behind. -/
theorem c3_download_failure (plat : Platform) (env : ItemEnv)
    (hpre : env.preExc = false) (hdl : (download_cab env.dl).1 = false) :
    (process_url plat env).result = some false ∧
    (env.dl = .raiseEarly → (process_url plat env).archiveLeft = false) ∧
    (∀ pre post, sumPy (pre ++ some false :: post) = sumPy (pre ++ post)) := by
  obtain ⟨pre, dl, ext⟩ := env
  cases hpre
  refine ⟨?_, ?_, fun pre post => sumPy_false_elim post pre 0⟩
  · cases dl with
    | raiseEarly => rfl
    | stream w raised =>
      cases raised with
      | false => simp [download_cab] at hdl
      | true => rfl
  · intro h
    cases h
    rfl

/-- Witness for the amended C3 theorem at a concrete early network failure. -/
theorem c3_download_failure_witness :
    (process_url .unix ⟨false, .raiseEarly, .ok⟩).result = some false ∧
    (process_url .unix ⟨false, .raiseEarly, .ok⟩).archiveLeft = false := by
  have h := c3_download_failure .unix ⟨false, .raiseEarly, .ok⟩ rfl rfl
  exact ⟨h.1, h.2.1 rfl⟩

/-- C4: the store's load never raises: an absent file and an unparseable file
both yield the empty mapping, a parseable file yields exactly the parsed
value. -/
theorem c4_load_total (s : String) :
    load_existing_data none = Json.obj [] ∧
    (parseJson s = none → load_existing_data (some s) = Json.obj []) ∧
    (∀ j, parseJson s = some j → load_existing_data (some s) = j) := by
  refine ⟨rfl, fun h => ?_, fun j h => ?_⟩ <;> simp [load_existing_data, h]

/-- Witness for C4 at a concrete unparseable file. -/
theorem c4_load_total_witness :
    parseJson "[" = none ∧ load_existing_data (some "[") = Json.obj [] := by
  exact ⟨rfl, (c4_load_total "[").2.1 rfl⟩

/-- C6: a probe exception, a missing `Location` header, and an empty (falsy)
`Location` header all leave the record exactly unchanged and return normally
(non-fatal), and the corresponding warning line is printed. -/
theorem c6_probe_failure_leaves_record (data : Json) (p now msg : String) :
    resolveStep data p (.exc msg) now = .ok data ∧
    resolveStep data p .noHeader now = .ok data ∧
    resolveStep data p (.header "") now = .ok data ∧
    resolveStepLog data p (.exc msg) = ["Error fetching " ++ p ++ " URL: " ++ msg] ∧
    resolveStepLog data p .noHeader = ["No Location header found for " ++ p ++ "."] ∧
    resolveStepLog data p (.header "") = ["No Location header found for " ++ p ++ "."] := by
  refine ⟨rfl, rfl, ?_, rfl, rfl, ?_⟩ <;> simp [resolveStep, resolveStepLog]

/-- The Python tail slice `l[-5:]` is the reverse-take-reverse of the list. -/
theorem pyLastFive_eq_rtake (l : List Chars) : pyLastFive l = (l.reverse.take 5).reverse := by
  have h : pyLastFive l = l.drop (l.length - 5) := by
    unfold pyLastFive
    split
    · next h => simp [Nat.sub_eq_zero_of_le h]
    · rfl
  rw [h]
  exact List.rtake_eq_reverse_take_reverse l 5

/-- The source's length-arithmetic `.cab` stripping agrees with the
reversed-prefix formulation. -/
theorem stripCab_eq_reverse_form (cs : Chars) :
    stripCab cs =
      if List.isPrefixOf ['b', 'a', 'c', '.'] cs.reverse then (cs.reverse.drop 4).reverse
      else cs := by
  by_cases h : (['.', 'c', 'a', 'b'] : Chars) <:+ cs
  · have hlen : 4 ≤ cs.length := by simpa using h.length_le
    have hdrop : cs.drop (cs.length - 4) = ['.', 'c', 'a', 'b'] := by
      have := List.suffix_iff_eq_drop.mp h
      simpa using this.symm
    have hpre : List.isPrefixOf ['b', 'a', 'c', '.'] cs.reverse = true := by
      rw [List.isPrefixOf_iff_prefix]
      simpa using List.reverse_prefix.mpr h
    rw [stripCab, if_pos ⟨hlen, hdrop⟩, hpre, if_pos rfl]
    exact List.rdrop_eq_reverse_drop_reverse cs 4
  · have hpre : List.isPrefixOf ['b', 'a', 'c', '.'] cs.reverse = false := by
      by_contra hne
      apply h
      have : List.isPrefixOf ['b', 'a', 'c', '.'] cs.reverse = true := by
        cases hb : List.isPrefixOf ['b', 'a', 'c', '.'] cs.reverse
        · exact absurd hb hne
        · rfl
      have hp := List.isPrefixOf_iff_prefix.mp this
      have : (['.', 'c', 'a', 'b'] : Chars).reverse <+: cs.reverse := by simpa using hp
      exact List.reverse_prefix.mp this
    rw [stripCab, if_neg, hpre, if_neg]
    · simp
    · rintro ⟨hlen, hdrop⟩
      apply h
      rw [List.suffix_iff_eq_drop]
      simpa using hdrop.symm

/-- The pieces produced by `url.split('/')` contain no slash. -/
theorem splitSlashAux_no_slash :
    ∀ (cs cur : Chars), (∀ c ∈ cur, c ≠ '/') →
      ∀ p ∈ splitSlashAux cs cur, ∀ c ∈ p, c ≠ '/' := by
  intro cs
  induction cs with
  | nil =>
    intro cur hcur p hp c hc
    simp [splitSlashAux] at hp
    subst hp
    exact hcur c (List.mem_reverse.mp hc)
  | cons a cs ih =>
    intro cur hcur p hp c hc
    by_cases ha : a = '/'
    · rw [splitSlashAux, if_pos ha] at hp
      rcases List.mem_cons.mp hp with h1 | h1
      · subst h1
        exact hcur c (List.mem_reverse.mp hc)
      · exact ih [] (by simp) p h1 c hc
    · rw [splitSlashAux, if_neg ha] at hp
      refine ih (a :: cur) ?_ p hp c hc
      intro d hd
      rcases List.mem_cons.mp hd with h1 | h1
      · exact h1 ▸ ha
      · exact hcur d h1

/-- Joining slash-free pieces with underscores yields a slash-free token. -/
theorem joinUnderscore_no_slash :
    ∀ (ps : List Chars), (∀ p ∈ ps, ∀ c ∈ p, c ≠ '/') →
      ∀ c ∈ joinUnderscore ps, c ≠ '/' := by
  intro ps
  induction ps with
  | nil => intro _ c hc; simp [joinUnderscore] at hc
  | cons p rest ih =>
    intro h c hc
    cases rest with
    | nil => exact h p (by simp) c hc
    | cons q rest2 =>
      have heq : joinUnderscore (p :: q :: rest2) = p ++ ('_' :: joinUnderscore (q :: rest2)) := rfl
      rw [heq] at hc
      rcases List.mem_append.mp hc with h1 | h1
      · exact h p (by simp) c h1
      · rcases List.mem_cons.mp h1 with h2 | h2
        · subst h2; decide
        · exact ih (fun r hr => h r (List.mem_cons_of_mem _ hr)) c h2

/-- Stripping the `.cab` suffix keeps a sublist of the original characters. -/
theorem stripCab_sub (cs : Chars) : ∀ c ∈ stripCab cs, c ∈ cs := by
  intro c hc
  unfold stripCab at hc
  split at hc
  · exact List.take_subset _ _ hc
  · exact hc

/-- The derived token never contains a slash. -/
theorem path_suffix_no_slash (url : String) : ∀ c ∈ (path_suffix url).data, c ≠ '/' := by
  intro c hc
  have h1 : c ∈ joinUnderscore (pyLastFive (splitSlash url)) := stripCab_sub _ c hc
  refine joinUnderscore_no_slash _ ?_ c h1
  intro p hp
  have hmem : p ∈ splitSlash url := by
    unfold pyLastFive at hp
    split at hp
    · exact hp
    · exact List.drop_subset _ _ hp
  exact splitSlashAux_no_slash url.data [] (by simp) p hmem

/-- The derived token never begins with a slash. -/
theorem path_suffix_head_ne (url : String) : (path_suffix url).data.head? ≠ some '/' := by
  cases h : (path_suffix url).data with
  | nil => simp
  | cons c cs =>
    simp only [List.head?_cons, ne_eq, Option.some.injEq]
    intro hc
    exact path_suffix_no_slash url c (h ▸ List.mem_cons_self c cs) hc

/-- `os.path.join(a, b)` in the ordinary case. -/
theorem pyJoin2_simple (a b : String) (ha : a ≠ "") (ha2 : a.data.getLast? ≠ some '/')
    (hb : b.data.head? ≠ some '/') : pyJoin2 a b = a ++ "/" ++ b := by
  unfold pyJoin2
  rw [if_neg hb, if_neg ha, if_neg ha2]

/-- C8: the output token is the last five path segments joined by underscores
with a trailing `.cab` stripped; the output directory is the root directory
joined with the product name and that token; directory creation tolerates a
pre-existing directory (`exist_ok=True`). -/
theorem c8_output_layout (url prod : String) (h1 : prod ≠ "")
    (h2 : prod.data.head? ≠ some '/') (h3 : prod.data.getLast? ≠ some '/') :
    path_suffix url = specSubdirToken url ∧
    outputDir prod url = BASE_DIR ++ "/" ++ prod ++ "/" ++ path_suffix url ∧
    (∀ fs d, d ∈ fs → makedirs fs d = fs) := by
  refine ⟨?_, ?_, fun fs d hd => by simp [makedirs, hd]⟩
  · unfold path_suffix specSubdirToken
    simp only [pyLastFive_eq_rtake, stripCab_eq_reverse_form, apply_ite String.mk]
  · have hdata : prod.data ≠ [] := by
      intro hd
      apply h1
      have : String.mk prod.data = String.mk [] := by rw [hd]
      exact this
    have hne : BASE_DIR ++ "/" ++ prod ≠ "" := by
      intro hcontra
      have := congrArg String.data hcontra
      rw [String.data_append, String.data_append] at this
      rcases List.append_eq_nil.mp this with ⟨h4, _⟩
      rcases List.append_eq_nil.mp h4 with ⟨h5, _⟩
      exact absurd h5 (by decide)
    have hlast : (BASE_DIR ++ "/" ++ prod).data.getLast? ≠ some '/' := by
      rw [String.data_append, List.getLast?_append]
      obtain ⟨x, hx⟩ : ∃ x, prod.data.getLast? = some x := by
        cases hp : prod.data.getLast? with
        | none => exact absurd (List.getLast?_eq_none_iff.mp hp) hdata
        | some x => exact ⟨x, rfl⟩
      rw [hx, Option.or]
      rw [hx] at h3
      exact h3
    unfold outputDir
    rw [pyJoin2_simple BASE_DIR prod (by decide) (by decide) h2,
      pyJoin2_simple _ _ hne hlast (path_suffix_head_ne url)]

/-- Witness for C8 at a concrete work item. -/
theorem c8_output_layout_witness :
    path_suffix "https://a/b/c/d/e/f.cab" = specSubdirToken "https://a/b/c/d/e/f.cab" ∧
    outputDir "Win10" "https://a/b/c/d/e/f.cab" =
      BASE_DIR ++ "/" ++ "Win10" ++ "/" ++ path_suffix "https://a/b/c/d/e/f.cab" ∧
    (∀ fs d, d ∈ fs → makedirs fs d = fs) :=
  c8_output_layout "https://a/b/c/d/e/f.cab" "Win10" (by decide) (by decide) (by decide)

/-- Bind on a successful `Except` computation. -/
theorem excBindOk {α β : Type} (a : α) (f : α → Except PyErr β) :
    ((Except.ok a : Except PyErr α) >>= f) = f a := rfl

/-- Bind on a failed `Except` computation. -/
theorem excBindErr {α β : Type} (e : PyErr) (f : α → Except PyErr β) :
    ((Except.error e : Except PyErr α) >>= f) = .error e := rfl

/-- On a non-dict state value every resolver iteration either leaves the value
untouched (probe failure, no header, target already a substring) or raises a
`TypeError` that `except requests.RequestException` does not catch. -/
theorem resolveStep_nonObj (d : Json) (p now : String) (pr : ProbeOutcome)
    (hobj : d.isObj = false) :
    resolveStep d p pr now = .ok d ∨ ∃ e, resolveStep d p pr now = .error e := by
  cases pr with
  | exc msg => exact Or.inl rfl
  | noHeader => exact Or.inl rfl
  | header loc =>
    by_cases hloc : loc = ""
    · subst hloc
      exact Or.inl rfl
    · right
      cases d with
      | obj kvs => simp [Json.isObj] at hobj
      | null =>
        refine ⟨.typeError, ?_⟩
        have h : resolveStep Json.null p (.header loc) now =
            if loc = "" then Except.ok Json.null else Except.error PyErr.typeError := rfl
        rw [h, if_neg hloc]
      | bool b =>
        refine ⟨.typeError, ?_⟩
        have h : resolveStep (Json.bool b) p (.header loc) now =
            if loc = "" then Except.ok (Json.bool b) else Except.error PyErr.typeError := rfl
        rw [h, if_neg hloc]
      | num n =>
        refine ⟨.typeError, ?_⟩
        have h : resolveStep (Json.num n) p (.header loc) now =
            if loc = "" then Except.ok (Json.num n) else Except.error PyErr.typeError := rfl
        rw [h, if_neg hloc]
      | str s =>
        refine ⟨.typeError, ?_⟩
        have h : resolveStep (Json.str s) p (.header loc) now =
            if loc = "" then Except.ok (Json.str s)
            else if listContainsSub p.data s.data then Except.error PyErr.typeError
            else Except.error PyErr.typeError := rfl
        rw [h, if_neg hloc, ite_self]
      | arr xs =>
        refine ⟨.typeError, ?_⟩
        have h : resolveStep (Json.arr xs) p (.header loc) now =
            if loc = "" then Except.ok (Json.arr xs)
            else if xs.any (fun j => match j with | .str s => s == p | _ => false) then
              Except.error PyErr.typeError
            else Except.error PyErr.typeError := rfl
        rw [h, if_neg hloc, ite_self]

/-- On a non-dict state value the whole resolver loop either returns the value
untouched or raises. -/
theorem runResolver_nonObj (j : Json) (probes : String → ProbeOutcome)
    (clockIso : String → String) (hobj : j.isObj = false) :
    runResolver j probes clockIso = .ok j ∨ ∃ e, runResolver j probes clockIso = .error e := by
  have hrun : runResolver j probes clockIso =
      resolveStep j "Win10" (probes "Win10") (clockIso "Win10") >>= fun d1 =>
        resolveStep d1 "Win11" (probes "Win11") (clockIso "Win11") >>= fun d2 =>
          Except.ok d2 := rfl
  rcases resolveStep_nonObj j "Win10" (clockIso "Win10") (probes "Win10") hobj with h1 | ⟨e, h1⟩
  · rcases resolveStep_nonObj j "Win11" (clockIso "Win11") (probes "Win11") hobj with h2 | ⟨e, h2⟩
    · left
      rw [hrun, h1, excBindOk, h2, excBindOk]
    · right
      exact ⟨e, by rw [hrun, h1, excBindOk, h2, excBindErr]⟩
  · right
    exact ⟨e, by rw [hrun, h1, excBindErr]⟩

/-- The composition `main` computes, written with explicit binds. -/
theorem main_eq (file : Option String) (probes : String → ProbeOutcome)
    (clockIso : String → String) (plat : Platform) (env : String → String → ItemEnv) :
    main file probes clockIso plat env =
      runResolver (load_existing_data file) probes clockIso >>= fun data =>
        buildUrlList data >>= fun items =>
          sumPy (items.map (processItem plat env)) >>= fun k =>
            Except.ok (summaryLine k (items.map (processItem plat env)).length) := rfl

/-- C10: a state file holding valid JSON whose top level is not an object is
returned unchanged by the load (no shape validation), and the run then dies
with an uncaught exception (at `data.items()`, or already at the resolver's
subscript assignment) instead of treating the file as empty state. -/
theorem c10_no_shape_validation (s : String) (j : Json) (hparse : parseJson s = some j)
    (hobj : j.isObj = false) (probes : String → ProbeOutcome) (clockIso : String → String)
    (plat : Platform) (env : String → String → ItemEnv) :
    load_existing_data (some s) = j ∧
    ∃ e, main (some s) probes clockIso plat env = .error e := by
  have hload : load_existing_data (some s) = j := by simp [load_existing_data, hparse]
  refine ⟨hload, ?_⟩
  have hbuild : buildUrlList j = .error .attrError := by
    cases j <;> first | rfl | simp [Json.isObj] at hobj
  rw [main_eq, hload]
  rcases runResolver_nonObj j probes clockIso hobj with h1 | ⟨e, h1⟩
  · exact ⟨.attrError, by rw [h1, excBindOk, hbuild, excBindErr]⟩
  · exact ⟨e, by rw [h1, excBindErr]⟩

/-- Witness for C10 at a concrete list-valued state file. -/
theorem c10_no_shape_validation_witness :
    parseJson "[\"x\"]" = some (.arr [.str "x"]) ∧
    Json.isObj (.arr [.str "x"]) = false ∧
    load_existing_data (some "[\"x\"]") = .arr [.str "x"] ∧
    ∃ e, main (some "[\"x\"]") (fun _ => .noHeader) (fun _ => "now") .unix envC1 = .error e := by
  have h := c10_no_shape_validation "[\"x\"]" (.arr [.str "x"]) rfl rfl
    (fun _ => .noHeader) (fun _ => "now") .unix envC1
  exact ⟨rfl, rfl, h.1, h.2⟩

/-- A key absent from the association list looks up to nothing. -/
theorem jLookup_eq_none_of_any_false (kvs : List (String × Json)) (k : String)
    (h : kvs.any (fun kv => kv.1 == k) = false) : jLookup kvs k = none := by
  unfold jLookup
  rw [List.find?_eq_none.mpr (List.any_eq_false.mp h)]
  rfl

/-- Appending entries cannot change an existing lookup. -/
theorem jLookup_append_some (kvs l : List (String × Json)) (k : String) (v : Json)
    (h : jLookup kvs k = some v) : jLookup (kvs ++ l) k = some v := by
  unfold jLookup at h ⊢
  rw [List.find?_append]
  cases hf : kvs.find? (fun kv => kv.1 == k) with
  | none => rw [hf] at h; simp at h
  | some kv => rw [hf] at h; simpa [Option.or] using h

/-- Looking up past absent keys reads the appended entries. -/
theorem jLookup_append_none (kvs l : List (String × Json)) (k : String)
    (h : jLookup kvs k = none) : jLookup (kvs ++ l) k = jLookup l k := by
  unfold jLookup at h ⊢
  rw [List.find?_append]
  cases hf : kvs.find? (fun kv => kv.1 == k) with
  | none => simp [Option.or]
  | some kv => rw [hf] at h; simp at h

/-- Replacing the value under one key leaves other keys' lookups unchanged. -/
theorem jLookup_replace_ne (kvs : List (String × Json)) (k P : String) (v : Json)
    (hne : P ≠ k) :
    jLookup (kvs.map (fun kv => if kv.1 == k then (k, v) else kv)) P = jLookup kvs P := by
  induction kvs with
  | nil => rfl
  | cons kv rest ih =>
    by_cases h1 : kv.1 == k
    · have hk : kv.1 = k := by simpa using h1
      have hPk : (k == P) = false := by
        simp only [beq_eq_false_iff_ne]
        exact fun hc => hne hc.symm
      have hPk2 : (kv.1 == P) = false := by rw [hk]; exact hPk
      simp only [List.map_cons, h1, if_pos rfl]
      unfold jLookup
      rw [List.find?_cons_of_neg _ (by simp [hPk]), List.find?_cons_of_neg _ (by simp [hPk2])]
      exact ih
    · have h1f : (kv.1 == k) = false := by simpa using h1
      simp only [List.map_cons, h1f]
      rw [if_neg (by simp)]
      by_cases h2 : kv.1 == P
      · unfold jLookup
        rw [List.find?_cons_of_pos _ (by simpa using h2), List.find?_cons_of_pos _ (by simpa using h2)]
      · unfold jLookup
        rw [List.find?_cons_of_neg _ (by simpa using h2), List.find?_cons_of_neg _ (by simpa using h2)]
        exact ih

/-- Replacing the value under a present key makes its lookup read the new
value. -/
theorem jLookup_replace_self (kvs : List (String × Json)) (k : String) (v : Json)
    (hmem : kvs.any (fun kv => kv.1 == k) = true) :
    jLookup (kvs.map (fun kv => if kv.1 == k then (k, v) else kv)) k = some v := by
  induction kvs with
  | nil => simp at hmem
  | cons kv rest ih =>
    by_cases h1 : kv.1 == k
    · simp only [List.map_cons, h1, if_pos rfl]
      unfold jLookup
      rw [List.find?_cons_of_pos _ (by simp)]
      rfl
    · have h1f : (kv.1 == k) = false := by simpa using h1
      simp only [List.map_cons, h1f]
      rw [if_neg (by simp)]
      have hmem2 : rest.any (fun kv => kv.1 == k) = true := by
        rcases List.any_eq_true.mp hmem with ⟨x, hx, hpx⟩
        rcases List.mem_cons.mp hx with h2 | h2
        · subst h2; rw [hpx] at h1f; cases h1f
        · exact List.any_eq_true.mpr ⟨x, h2, hpx⟩
      unfold jLookup
      rw [List.find?_cons_of_neg _ (by simpa using h1)]
      exact ih hmem2

/-- Lookup after a Python dict write under the written key. -/
theorem jLookup_pySet_self (kvs : List (String × Json)) (k : String) (v : Json) :
    jLookup (pySet kvs k v) k = some v := by
  unfold pySet
  cases hm : kvs.any (fun kv => kv.1 == k) with
  | true =>
    rw [if_pos rfl]
    exact jLookup_replace_self kvs k v hm
  | false =>
    rw [if_neg (by simp)]
    rw [jLookup_append_none kvs _ k (jLookup_eq_none_of_any_false kvs k hm)]
    unfold jLookup
    rw [List.find?_cons_of_pos _ (by simp)]
    rfl

/-- Lookup after a Python dict write under any other key. -/
theorem jLookup_pySet_ne (kvs : List (String × Json)) (k P : String) (v : Json)
    (hne : P ≠ k) : jLookup (pySet kvs k v) P = jLookup kvs P := by
  unfold pySet
  cases hm : kvs.any (fun kv => kv.1 == k) with
  | true =>
    rw [if_pos rfl]
    exact jLookup_replace_ne kvs k P v hne
  | false =>
    rw [if_neg (by simp)]
    cases hP : jLookup kvs P with
    | some w => exact jLookup_append_some kvs _ P w hP
    | none =>
      rw [jLookup_append_none kvs _ P hP]
      unfold jLookup
      rw [List.find?_cons_of_neg _ (by simp [beq_eq_false_iff_ne]; exact fun hc => hne hc.symm)]
      rfl

/-- A Python dict write of a dict value preserves all-values-are-dicts. -/
theorem wf_pySet (kvs : List (String × Json)) (k : String) (v : Json)
    (hall : kvs.all (fun kv => kv.2.isObj) = true) (hv : v.isObj = true) :
    (pySet kvs k v).all (fun kv => kv.2.isObj) = true := by
  unfold pySet
  split
  · rw [List.all_eq_true]
    intro x hx
    rcases List.mem_map.mp hx with ⟨kv, hkv, heq⟩
    by_cases h1 : kv.1 == k
    · rw [← heq, if_pos h1]
      exact hv
    · rw [← heq, if_neg h1]
      exact List.all_eq_true.mp hall kv hkv
  · rw [List.all_append, hall]
    simpa using hv

/-- A dict write on a key that is absent appends the pair. -/
theorem pySet_eq_append (kvs : List (String × Json)) (k : String) (v : Json)
    (hm : kvs.any (fun kv => kv.1 == k) = false) : pySet kvs k v = kvs ++ [(k, v)] := by
  unfold pySet
  rw [hm]
  simp

/-- A present key's lookup yields a value. -/
theorem jLookup_isSome_of_any (l : List (String × Json)) (k : String)
    (h : l.any (fun kv => kv.1 == k) = true) : ∃ v, jLookup l k = some v := by
  unfold jLookup
  cases hf : l.find? (fun kv => kv.1 == k) with
  | none =>
    rw [List.find?_eq_none] at hf
    rcases List.any_eq_true.mp h with ⟨x, hx, hpx⟩
    exact absurd hpx (by simpa using hf x hx)
  | some kv => exact ⟨kv.2, rfl⟩

/-- Subscript read on a dict, with the outer match reduced. -/
theorem pyGetItem_obj_eq (l : List (String × Json)) (k : String) :
    pyGetItem (.obj l) k =
      match l.find? (fun kv => kv.1 == k) with
      | some kv => .ok kv.2
      | none => .error .keyError := rfl

/-- Subscript read on a dict with a present key. -/
theorem pyGetItem_some (l : List (String × Json)) (k : String) (v : Json)
    (h : jLookup l k = some v) : pyGetItem (.obj l) k = .ok v := by
  rw [pyGetItem_obj_eq]
  unfold jLookup at h
  cases hf : l.find? (fun kv => kv.1 == k) with
  | none => rw [hf] at h; simp at h
  | some kv =>
    rw [hf] at h
    simp only [Option.map] at h
    injection h with h
    exact congrArg Except.ok h

/-- The two-level lookup on a dict, with the outer match reduced. -/
theorem lookup2_obj (kvs : List (String × Json)) (P U : String) :
    lookup2 (.obj kvs) P U =
      match jLookup kvs P with
      | some (.obj inner) => jLookup inner U
      | _ => none := rfl

/-- Destructuring a successful two-level lookup. -/
theorem lookup2_obj_some (kvs : List (String × Json)) (P U : String) (v : Json)
    (h : lookup2 (.obj kvs) P U = some v) :
    ∃ inner, jLookup kvs P = some (.obj inner) ∧ jLookup inner U = some v := by
  rw [lookup2_obj] at h
  cases hjp : jLookup kvs P with
  | none =>
    rw [hjp] at h
    exact Option.noConfusion (h : (none : Option Json) = some v)
  | some w =>
    rw [hjp] at h
    cases w with
    | obj inner => exact ⟨inner, rfl, h⟩
    | null => exact Option.noConfusion (h : (none : Option Json) = some v)
    | bool b => exact Option.noConfusion (h : (none : Option Json) = some v)
    | num n => exact Option.noConfusion (h : (none : Option Json) = some v)
    | str s => exact Option.noConfusion (h : (none : Option Json) = some v)
    | arr xs => exact Option.noConfusion (h : (none : Option Json) = some v)

/-- The resolver iteration on a non-empty header, written with explicit
binds. -/
theorem resolveStep_header_eq (d : Json) (p loc now : String) (hloc : loc ≠ "") :
    resolveStep d p (.header loc) now =
      pyContains d p >>= fun mem =>
        (if mem then pure d else pySetItem d p (.obj [])) >>= fun data1 =>
          pyGetItem data1 p >>= fun inner =>
            pyContains inner loc >>= fun mem2 =>
              if mem2 then pure data1
              else pySetItem inner loc (.str now) >>= fun inner2 =>
                pySetItem data1 p inner2 := by
  simp only [resolveStep]
  rw [if_neg hloc]
  congr 1
  funext mem
  cases mem <;> rfl

/-- One resolver iteration on well-formed data succeeds, preserves
well-formedness, never removes or overwrites an existing entry, touches no
other product, and records a previously unseen target under its product. -/
theorem resolveStep_invariants (d : Json) (p now : String) (pr : ProbeOutcome)
    (hwf : wfJson d = true) :
    ∃ d', resolveStep d p pr now = .ok d' ∧ wfJson d' = true ∧
      (∀ P U v, lookup2 d P U = some v → lookup2 d' P U = some v) ∧
      (∀ P U, P ≠ p → lookup2 d' P U = lookup2 d P U) ∧
      (∀ T, pr = .header T → T ≠ "" → lookup2 d p T = none →
        lookup2 d' p T = some (.str now)) := by
  cases d with
  | null => simp [wfJson] at hwf
  | bool b => simp [wfJson] at hwf
  | num n => simp [wfJson] at hwf
  | str s => simp [wfJson] at hwf
  | arr xs => simp [wfJson] at hwf
  | obj kvs =>
  have hwfk : kvs.all (fun kv => kv.2.isObj) = true := by simpa [wfJson] using hwf
  cases pr with
  | exc msg =>
    exact ⟨.obj kvs, rfl, hwf, fun _ _ _ h => h, fun _ _ _ => rfl, fun T hT => nomatch hT⟩
  | noHeader =>
    exact ⟨.obj kvs, rfl, hwf, fun _ _ _ h => h, fun _ _ _ => rfl, fun T hT => nomatch hT⟩
  | header loc =>
    by_cases hloc : loc = ""
    · subst hloc
      refine ⟨.obj kvs, rfl, hwf, fun _ _ _ h => h, fun _ _ _ => rfl, fun T hT hne => ?_⟩
      cases hT
      exact absurd rfl hne
    · have e1 : pyContains (Json.obj kvs) p = .ok (kvs.any (fun kv => kv.1 == p)) := rfl
      cases hm : kvs.any (fun kv => kv.1 == p) with
      | false =>
        have hstep : resolveStep (Json.obj kvs) p (.header loc) now =
            .ok (.obj (pySet (kvs ++ [(p, .obj [])]) p (.obj [(loc, .str now)]))) := by
          rw [resolveStep_header_eq _ _ _ _ hloc, e1]
          simp only [excBindOk]
          rw [hm, if_neg Bool.false_ne_true]
          have e2 : pySetItem (Json.obj kvs) p (.obj []) =
              .ok (.obj (pySet kvs p (.obj []))) := rfl
          rw [e2]
          simp only [excBindOk]
          rw [pySet_eq_append kvs p (.obj []) hm]
          have hlook : jLookup (kvs ++ [(p, .obj [])]) p = some (.obj []) := by
            rw [jLookup_append_none kvs _ p (jLookup_eq_none_of_any_false kvs p hm)]
            unfold jLookup
            rw [List.find?_cons_of_pos _ (by simp)]
            rfl
          rw [pyGetItem_some _ _ _ hlook]
          simp only [excBindOk]
          have e3 : pyContains (Json.obj []) loc = .ok false := rfl
          rw [e3]
          simp only [excBindOk]
          rw [if_neg Bool.false_ne_true]
          have e4 : pySetItem (Json.obj []) loc (.str now) =
              .ok (.obj [(loc, .str now)]) := rfl
          rw [e4]
          simp only [excBindOk]
          rfl
        refine ⟨_, hstep, ?_, ?_, ?_, ?_⟩
        · show wfJson (.obj (pySet (kvs ++ [(p, .obj [])]) p (.obj [(loc, .str now)]))) = true
          have hall : (kvs ++ [(p, Json.obj [])]).all (fun kv => kv.2.isObj) = true := by
            rw [List.all_append, hwfk]
            rfl
          simpa [wfJson] using wf_pySet _ p (.obj [(loc, .str now)]) hall rfl
        · intro P U v h
          obtain ⟨inner, hjp, hju⟩ := lookup2_obj_some kvs P U v h
          by_cases hPp : P = p
          · subst hPp
            rw [jLookup_eq_none_of_any_false kvs P hm] at hjp
            cases hjp
          · show lookup2 (.obj (pySet (kvs ++ [(p, .obj [])]) p (.obj [(loc, .str now)]))) P U =
              some v
            rw [lookup2_obj]
            rw [jLookup_pySet_ne _ _ _ _ hPp, jLookup_append_some kvs _ P _ hjp]
            exact hju
        · intro P U hPp
          show lookup2 (.obj (pySet (kvs ++ [(p, .obj [])]) p (.obj [(loc, .str now)]))) P U =
            lookup2 (.obj kvs) P U
          rw [lookup2_obj, lookup2_obj]
          rw [jLookup_pySet_ne _ _ _ _ hPp]
          cases hjp : jLookup kvs P with
          | some w => rw [jLookup_append_some kvs _ P w hjp]
          | none =>
            rw [jLookup_append_none kvs _ P hjp]
            have hsing : jLookup [(p, Json.obj [])] P = none := by
              unfold jLookup
              rw [List.find?_cons_of_neg _ (by
                simp only [beq_iff_eq]
                exact fun hc => hPp hc.symm)]
              rfl
            rw [hsing]
        · intro T hT hTne hnone
          cases hT
          show lookup2 (.obj (pySet (kvs ++ [(p, .obj [])]) p (.obj [(loc, .str now)]))) p loc =
            some (.str now)
          rw [lookup2_obj]
          rw [jLookup_pySet_self]
          show jLookup [(loc, .str now)] loc = some (.str now)
          unfold jLookup
          rw [List.find?_cons_of_pos _ (by simp)]
          rfl
      | true =>
        obtain ⟨kv, hf⟩ : ∃ kv, kvs.find? (fun kv => kv.1 == p) = some kv := by
          cases hfc : kvs.find? (fun kv => kv.1 == p) with
          | none =>
            rw [List.find?_eq_none] at hfc
            rcases List.any_eq_true.mp hm with ⟨x, hx, hpx⟩
            exact absurd hpx (by simpa using hfc x hx)
          | some kv => exact ⟨kv, rfl⟩
        have hkv1 : kv.1 = p := by simpa using List.find?_some hf
        have hkvmem : kv ∈ kvs := List.mem_of_find?_eq_some hf
        have hkobj : kv.2.isObj = true := List.all_eq_true.mp hwfk kv hkvmem
        obtain ⟨inner, hinner⟩ : ∃ inner, kv.2 = .obj inner := by
          cases hv : kv.2 <;> rw [hv] at hkobj <;>
            first
              | exact ⟨_, rfl⟩
              | simp [Json.isObj] at hkobj
        have hjkvs : jLookup kvs p = some (.obj inner) := by
          unfold jLookup
          rw [hf]
          simp [hinner]
        cases hm2 : inner.any (fun uv => uv.1 == loc) with
        | true =>
          have hstep : resolveStep (Json.obj kvs) p (.header loc) now = .ok (.obj kvs) := by
            rw [resolveStep_header_eq _ _ _ _ hloc, e1]
            simp only [excBindOk]
            rw [hm, if_pos rfl]
            have ep : (pure (Json.obj kvs) : Except PyErr Json) = .ok (.obj kvs) := rfl
            rw [ep]
            simp only [excBindOk]
            rw [pyGetItem_some _ _ _ hjkvs]
            simp only [excBindOk]
            have e3 : pyContains (Json.obj inner) loc =
                .ok (inner.any (fun uv => uv.1 == loc)) := rfl
            rw [e3]
            simp only [excBindOk]
            rw [hm2, if_pos rfl]
            rfl
          refine ⟨.obj kvs, hstep, hwf, fun _ _ _ h => h, fun _ _ _ => rfl, ?_⟩
          intro T hT hTne hnone
          cases hT
          exfalso
          have hnone2 : jLookup inner loc = none := by
            rw [lookup2_obj] at hnone
            rw [hjkvs] at hnone
            exact hnone
          obtain ⟨v0, hv0⟩ := jLookup_isSome_of_any inner loc hm2
          rw [hv0] at hnone2
          cases hnone2
        | false =>
          have hstep : resolveStep (Json.obj kvs) p (.header loc) now =
              .ok (.obj (pySet kvs p (.obj (inner ++ [(loc, .str now)])))) := by
            rw [resolveStep_header_eq _ _ _ _ hloc, e1]
            simp only [excBindOk]
            rw [hm, if_pos rfl]
            have ep : (pure (Json.obj kvs) : Except PyErr Json) = .ok (.obj kvs) := rfl
            rw [ep]
            simp only [excBindOk]
            rw [pyGetItem_some _ _ _ hjkvs]
            simp only [excBindOk]
            have e3 : pyContains (Json.obj inner) loc =
                .ok (inner.any (fun uv => uv.1 == loc)) := rfl
            rw [e3]
            simp only [excBindOk]
            rw [hm2, if_neg Bool.false_ne_true]
            have e4 : pySetItem (Json.obj inner) loc (.str now) =
                .ok (.obj (pySet inner loc (.str now))) := rfl
            rw [e4]
            simp only [excBindOk]
            rw [pySet_eq_append inner loc _ hm2]
            rfl
          refine ⟨_, hstep, ?_, ?_, ?_, ?_⟩
          · show wfJson (.obj (pySet kvs p (.obj (inner ++ [(loc, .str now)])))) = true
            simpa [wfJson] using wf_pySet kvs p (.obj (inner ++ [(loc, .str now)])) hwfk rfl
          · intro P U v h
            obtain ⟨inner2, hjp, hju⟩ := lookup2_obj_some kvs P U v h
            by_cases hPp : P = p
            · subst hPp
              rw [hjkvs] at hjp
              have hinj : inner = inner2 := by
                injection hjp with h2
                injection h2
              show lookup2 (.obj (pySet kvs P (.obj (inner ++ [(loc, .str now)])))) P U = some v
              rw [lookup2_obj]
              rw [jLookup_pySet_self]
              show jLookup (inner ++ [(loc, .str now)]) U = some v
              exact jLookup_append_some _ _ _ _ (hinj ▸ hju)
            · show lookup2 (.obj (pySet kvs p (.obj (inner ++ [(loc, .str now)])))) P U = some v
              rw [lookup2_obj]
              rw [jLookup_pySet_ne _ _ _ _ hPp, hjp]
              exact hju
          · intro P U hPp
            show lookup2 (.obj (pySet kvs p (.obj (inner ++ [(loc, .str now)])))) P U =
              lookup2 (.obj kvs) P U
            rw [lookup2_obj, lookup2_obj]
            rw [jLookup_pySet_ne _ _ _ _ hPp]
          · intro T hT hTne hnone
            cases hT
            show lookup2 (.obj (pySet kvs p (.obj (inner ++ [(loc, .str now)])))) p loc =
              some (.str now)
            rw [lookup2_obj]
            rw [jLookup_pySet_self]
            show jLookup (inner ++ [(loc, .str now)]) loc = some (.str now)
            rw [jLookup_append_none inner _ loc (jLookup_eq_none_of_any_false inner loc hm2)]
            unfold jLookup
            rw [List.find?_cons_of_pos _ (by simp)]
            rfl

/-- The whole sequential resolver loop over any product list with distinct
names: it succeeds on well-formed data, preserves well-formedness and every
existing entry, and records each newly discovered target. -/
theorem foldResolve_invariants (probes : String → ProbeOutcome) (clockIso : String → String) :
    ∀ (l : List (String × String)) (d : Json), wfJson d = true →
      allDistinct (l.map (fun pu => pu.1)) = true →
      ∃ d', l.foldlM (fun d pu => resolveStep d pu.1 (probes pu.1) (clockIso pu.1)) d = .ok d' ∧
        wfJson d' = true ∧
        (∀ P U v, lookup2 d P U = some v → lookup2 d' P U = some v) ∧
        (∀ pu ∈ l, ∀ T, probes pu.1 = .header T → T ≠ "" → lookup2 d pu.1 T = none →
          lookup2 d' pu.1 T = some (.str (clockIso pu.1))) := by
  intro l
  induction l with
  | nil =>
    intro d hwf _
    exact ⟨d, rfl, hwf, fun _ _ _ h => h, fun pu hpu => absurd hpu (List.not_mem_nil pu)⟩
  | cons q rest ih =>
    intro d hwf hdist
    obtain ⟨d1, hstep, hwf1, hframe1, hother1, hadds1⟩ :=
      resolveStep_invariants d q.1 (clockIso q.1) (probes q.1) hwf
    rw [List.map_cons] at hdist
    have hdist2 := hdist
    unfold allDistinct at hdist2
    rw [Bool.and_eq_true] at hdist2
    obtain ⟨hnc, hdist1⟩ := hdist2
    have hnotin : ∀ pu ∈ rest, pu.1 ≠ q.1 := by
      intro pu hpu heq
      have hmem : List.elem q.1 (rest.map (fun pu => pu.1)) = true :=
        List.elem_iff.mpr (heq ▸ List.mem_map_of_mem _ hpu)
      rw [List.contains, hmem] at hnc
      cases hnc
    obtain ⟨d', hfold', hwf', hframe', hadds'⟩ := ih d1 hwf1 hdist1
    have hfold : (q :: rest).foldlM
        (fun d pu => resolveStep d pu.1 (probes pu.1) (clockIso pu.1)) d =
        resolveStep d q.1 (probes q.1) (clockIso q.1) >>= fun x =>
          rest.foldlM (fun d pu => resolveStep d pu.1 (probes pu.1) (clockIso pu.1)) x := rfl
    refine ⟨d', ?_, hwf', fun P U v h => hframe' P U v (hframe1 P U v h), ?_⟩
    · rw [hfold, hstep]
      simpa [excBindOk] using hfold'
    · intro pu hpu T hpr hTne hnone
      rcases List.mem_cons.mp hpu with hq | hrest
      · subst hq
        exact hframe' pu.1 T _ (hadds1 T hpr hTne hnone)
      · have hne : pu.1 ≠ q.1 := hnotin pu hrest
        have hnone1 : lookup2 d1 pu.1 T = none := by
          rw [hother1 pu.1 T hne]
          exact hnone
        exact hadds' pu hrest T hpr hTne hnone1

/-- The string data of a constructed string. -/
theorem stringMk_data (cs : Chars) : (String.mk cs).data = cs := rfl

/-- Bind on a present `Option` value. -/
theorem optBindSome {α β : Type} (a : α) (f : α → Option β) :
    ((some a : Option α) >>= f) = f a := rfl

/-- A zero-padded digit character is a digit. -/
theorem digitChar_isDigit (n : Nat) : (Char.ofNat (48 + n % 10)).isDigit = true := by
  have h : n % 10 < 10 := Nat.mod_lt _ (by decide)
  generalize hd : n % 10 = d
  rw [hd] at h
  interval_cases d <;> decide

/-- Consuming the two digits of a padded two-digit field. -/
theorem eatDigits_pad2 (n : Nat) (r : Chars) : eatDigits 2 (pad2 n ++ r) = some r := by
  simp [pad2, eatDigits, digitChar_isDigit]

/-- Consuming the four digits of the padded year field. -/
theorem eatDigits_pad4 (n : Nat) (r : Chars) : eatDigits 4 (pad4 n ++ r) = some r := by
  simp [pad4, eatDigits, digitChar_isDigit]

/-- Consuming the six digits of the padded microsecond field. -/
theorem eatDigits_pad6 (n : Nat) (r : Chars) : eatDigits 6 (pad6 n ++ r) = some r := by
  simp [pad6, eatDigits, digitChar_isDigit]

/-- Consuming an expected literal character. -/
theorem eatChar_self (ch : Char) (r : Chars) : eatChar ch (ch :: r) = some r := by
  simp [eatChar]

/-- Whatever the clock reads, `datetime.isoformat()` output passes the
ISO-8601 format check. -/
theorem isISO8601_isoformat (d : DateTime) : isISO8601 (isoformat d) = true := by
  unfold isISO8601 isoformat
  have h6 : eatDigits 6 (pad6 d.usec) = some [] := by
    have := eatDigits_pad6 d.usec []
    simpa using this
  have h2 : eatDigits 2 (pad2 d.second) = some [] := by
    have := eatDigits_pad2 d.second []
    simpa using this
  by_cases hu : d.usec = 0 <;>
    simp [hu, stringMk_data, eatDigits_pad4, eatDigits_pad2, optBindSome, eatChar_self, h6, h2]

/-- C2: a run's resolver loop on a well-formed record succeeds, never removes
or overwrites an existing product/URL entry or its timestamp, and when the
probe for a tracked product returns a non-empty redirect target not yet
recorded for it, the resulting record (which `save_data` then writes out in
full) holds that entry with the `datetime.now().isoformat()` timestamp, which
parses as ISO-8601. -/
theorem c2_record_additive (kvs : List (String × Json)) (probes : String → ProbeOutcome)
    (clock : String → DateTime) (hwf : wfJson (.obj kvs) = true) :
    ∃ d', runResolver (.obj kvs) probes (fun p => isoformat (clock p)) = .ok d' ∧
      wfJson d' = true ∧
      (∀ P U v, lookup2 (.obj kvs) P U = some v → lookup2 d' P U = some v) ∧
      (∀ pu ∈ URLS, ∀ T, probes pu.1 = .header T → T ≠ "" →
        lookup2 (.obj kvs) pu.1 T = none →
        lookup2 d' pu.1 T = some (.str (isoformat (clock pu.1))) ∧
        isISO8601 (isoformat (clock pu.1)) = true) := by
  obtain ⟨d', hrun, hwf', hframe, hadds⟩ := foldResolve_invariants probes
    (fun p => isoformat (clock p)) URLS (.obj kvs) hwf (by decide)
  exact ⟨d', hrun, hwf', hframe,
    fun pu hpu T h1 h2 h3 => ⟨hadds pu hpu T h1 h2 h3, isISO8601_isoformat _⟩⟩

/-- Witness for C2: one product already holding one URL, a probe discovering a
fresh target for it. -/
theorem c2_record_additive_witness :
    wfJson (.obj [("Win10", .obj [("u0", .str "old")])]) = true ∧
    ∃ d', runResolver (.obj [("Win10", .obj [("u0", .str "old")])])
        (fun p => if p = "Win10" then .header "T1" else .noHeader)
        (fun p => isoformat (if p = "Win10" then ⟨2024, 5, 6, 7, 8, 9, 0⟩ else ⟨2024, 5, 6, 7, 8, 10, 0⟩)) = .ok d' ∧
      wfJson d' = true ∧
      (∀ P U v, lookup2 (.obj [("Win10", .obj [("u0", .str "old")])]) P U = some v →
        lookup2 d' P U = some v) ∧
      (∀ pu ∈ URLS, ∀ T,
        (if pu.1 = "Win10" then ProbeOutcome.header "T1" else ProbeOutcome.noHeader) = .header T →
        T ≠ "" → lookup2 (.obj [("Win10", .obj [("u0", .str "old")])]) pu.1 T = none →
        lookup2 d' pu.1 T =
          some (.str (isoformat (if pu.1 = "Win10" then ⟨2024, 5, 6, 7, 8, 9, 0⟩ else ⟨2024, 5, 6, 7, 8, 10, 0⟩))) ∧
        isISO8601 (isoformat (if pu.1 = "Win10" then ⟨2024, 5, 6, 7, 8, 9, 0⟩ else ⟨2024, 5, 6, 7, 8, 10, 0⟩)) = true) := by
  exact ⟨by decide, c2_record_additive [("Win10", .obj [("u0", .str "old")])]
    (fun p => if p = "Win10" then .header "T1" else .noHeader)
    (fun p => if p = "Win10" then ⟨2024, 5, 6, 7, 8, 9, 0⟩ else ⟨2024, 5, 6, 7, 8, 10, 0⟩)
    (by decide)⟩

/-- Whitespace skipping steps over a space. -/
@[simp] theorem skipWs_space (cs : Chars) : skipWs (' ' :: cs) = skipWs cs := rfl

/-- Whitespace skipping steps over a newline. -/
@[simp] theorem skipWs_newline (cs : Chars) : skipWs ('\n' :: cs) = skipWs cs := rfl

/-- Whitespace skipping stops at a quote. -/
@[simp] theorem skipWs_quote (cs : Chars) : skipWs ('"' :: cs) = '"' :: cs := rfl

/-- Whitespace skipping stops at a colon. -/
@[simp] theorem skipWs_colon (cs : Chars) : skipWs (':' :: cs) = ':' :: cs := rfl

/-- Whitespace skipping stops at a comma. -/
@[simp] theorem skipWs_comma (cs : Chars) : skipWs (',' :: cs) = ',' :: cs := rfl

/-- Whitespace skipping stops at a closing brace. -/
@[simp] theorem skipWs_rbrace (cs : Chars) : skipWs ('}' :: cs) = '}' :: cs := rfl

/-- Whitespace skipping stops at an opening brace. -/
@[simp] theorem skipWs_lbrace (cs : Chars) : skipWs ('{' :: cs) = '{' :: cs := rfl

/-- Constructing a string back from its own data is the identity. -/
theorem stringEta (s : String) : String.mk s.data = s := rfl

/-- A plain character is written verbatim by the JSON escaper. -/
theorem escChar_plain (c : Char) (h : plainChar c = true) : escChar c = [c] := by
  unfold plainChar at h
  simp only [Bool.and_eq_true, decide_eq_true_eq, bne_iff_ne, ne_eq] at h
  obtain ⟨⟨⟨h1, h2⟩, h3⟩, h4⟩ := h
  have hch : ∀ (x : Char), x.toNat < 0x20 → c ≠ x := by
    intro x hx hc
    rw [hc] at h1
    omega
  have hrange : ¬(c.toNat < 0x20 || 0x7f ≤ c.toNat) = true := by
    simp only [Bool.or_eq_true, decide_eq_true_eq]
    omega
  unfold escChar
  rw [if_neg h3, if_neg h4, if_neg (hch '\n' (by decide)), if_neg (hch '\t' (by decide)),
    if_neg (hch '\r' (by decide)), if_neg (hch (Char.ofNat 8) (by decide)),
    if_neg (hch (Char.ofNat 12) (by decide)), if_neg hrange]

/-- The JSON escaper is the identity on a list of plain characters. -/
theorem escape_chars_plain (cs : Chars) (h : cs.all plainChar = true) :
    List.foldr (fun c acc => escChar c ++ acc) [] cs = cs := by
  induction cs with
  | nil => rfl
  | cons c cs2 ih =>
    rw [List.all_cons, Bool.and_eq_true] at h
    obtain ⟨hc, hcs⟩ := h
    simp only [List.foldr_cons]
    rw [ih hcs, escChar_plain c hc]
    rfl

/-- A plain string is written verbatim by the JSON escaper. -/
theorem escape_plain (s : String) (h : plainStr s = true) : escape s = s.data := by
  unfold plainStr at h
  unfold escape
  exact escape_chars_plain s.data h

/-- Parsing the body of a serialized plain string consumes it up to the
closing quote. -/
theorem parseStrBody_plain (cs : Chars) (rest : Chars)
    (h : cs.all plainChar = true) :
    parseStrBody (cs ++ '"' :: rest) = some (cs, rest) := by
  induction cs with
  | nil =>
    rw [List.nil_append]
    unfold parseStrBody
    rw [if_pos rfl]
  | cons c cs2 ih =>
    rw [List.all_cons, Bool.and_eq_true] at h
    obtain ⟨hc, hcs⟩ := h
    unfold plainChar at hc
    simp only [Bool.and_eq_true, decide_eq_true_eq, bne_iff_ne, ne_eq] at hc
    obtain ⟨⟨⟨h1, h2⟩, h3⟩, h4⟩ := hc
    rw [List.cons_append]
    unfold parseStrBody
    rw [if_neg h3, if_neg h4, if_neg (by omega), ih hcs]

/-- Parsing a serialized plain string value preceded by the key separator's
space. -/
theorem parseValue_space_qstr (f : Nat) (s : String) (rest : Chars) (h : plainStr s = true) :
    parseValue (f + 1) (' ' :: (qstr s ++ rest)) = some (.str s, rest) := by
  have hq : qstr s ++ rest = '"' :: (s.data ++ '"' :: rest) := by
    unfold qstr
    rw [escape_plain s h]
    simp
  rw [hq]
  simp only [parseValue, skipWs_space, skipWs_quote]
  rw [parseStrBody_plain s.data rest (by unfold plainStr at h; exact h)]

/-- The character shape of one serialized inner line. -/
theorem serEntry_shape (u t : String) (hu : plainStr u = true) (z : Chars) :
    serEntry u t ++ z =
      ' ' :: ' ' :: ' ' :: ' ' :: ' ' :: ' ' :: ' ' :: ' ' ::
        ('"' :: (u.data ++ ('"' :: (':' :: ' ' :: (qstr t ++ z))))) := by
  simp [serEntry, ind8, qstr, escape_plain u hu]

/-- Parsing the last serialized entry of an inner dict, up to the dict's
closing brace. -/
theorem parseMembers_lastEntry (f : Nat) (u t : String) (hu : plainStr u = true)
    (ht : plainStr t = true) (rest : Chars) :
    parseMembers (f + 2) ('\n' :: (serEntry u t ++ ('\n' :: (ind4 ++ ('}' :: rest))))) =
      some ([(u, Json.str t)], rest) := by
  have hu' : u.data.all plainChar = true := hu
  rw [serEntry_shape u t hu]
  show parseMembers (f + 1 + 1) _ = _
  simp only [parseMembers, skipWs_newline, skipWs_space, skipWs_quote, skipWs_colon,
    skipWs_rbrace, ind4, List.cons_append, List.nil_append, parseStrBody_plain, hu',
    parseValue_space_qstr, ht, stringEta]

/-- Parsing a non-final serialized entry of an inner dict steps to the
remaining entries. -/
theorem parseMembers_midEntry (f : Nat) (u t : String) (hu : plainStr u = true)
    (ht : plainStr t = true) (z : Chars) :
    parseMembers (f + 2) ('\n' :: (serEntry u t ++ (',' :: '\n' :: z))) =
      match parseMembers (f + 1) ('\n' :: z) with
      | some (kvs, r) => some ((u, Json.str t) :: kvs, r)
      | none => none := by
  have hu' : u.data.all plainChar = true := hu
  rw [serEntry_shape u t hu]
  show parseMembers (f + 1 + 1) _ = _
  simp only [parseMembers, skipWs_newline, skipWs_space, skipWs_quote, skipWs_colon,
    skipWs_comma, List.cons_append, List.nil_append, parseStrBody_plain, hu',
    parseValue_space_qstr, ht, stringEta]

/-- Parsing all serialized entries of a non-empty inner dict, up to its
closing brace. -/
theorem parseMembers_serInnerTail (kvs : List (String × String)) :
    (∀ ut ∈ kvs, plainStr ut.1 = true ∧ plainStr ut.2 = true) →
    ∀ (f : Nat), kvs.length + 1 ≤ f → kvs ≠ [] → ∀ (rest : Chars),
      parseMembers f ('\n' :: (serInnerTail kvs ++ rest)) =
        some (kvs.map (fun ut => (ut.1, Json.str ut.2)), rest) := by
  induction kvs with
  | nil => intro _ f _ hne _; exact absurd rfl hne
  | cons ut tl ih =>
    intro hplain f hf _ rest
    obtain ⟨hu, ht⟩ := hplain ut (List.mem_cons_self _ _)
    have hlen : tl.length + 2 ≤ f := by
      simpa using hf
    obtain ⟨f2, rfl⟩ : ∃ f2, f = f2 + 2 := ⟨f - 2, by omega⟩
    cases tl with
    | nil =>
      have hsh : serInnerTail [ut] ++ rest =
          serEntry ut.1 ut.2 ++ ('\n' :: (ind4 ++ ('}' :: rest))) := by
        simp [serInnerTail]
      rw [hsh, parseMembers_lastEntry f2 ut.1 ut.2 hu ht rest]
      rfl
    | cons ut2 tl2 =>
      have hsh : serInnerTail (ut :: ut2 :: tl2) ++ rest =
          serEntry ut.1 ut.2 ++ (',' :: '\n' :: (serInnerTail (ut2 :: tl2) ++ rest)) := by
        simp [serInnerTail]
      rw [hsh, parseMembers_midEntry f2 ut.1 ut.2 hu ht _]
      have hih := ih (fun x hx => hplain x (List.mem_cons_of_mem _ hx)) (f2 + 1)
        (by simpa using hlen) (by simp) rest
      rw [hih]
      rfl

/-- Folding dict insertions over pairwise-distinct fresh keys appends them in
order. -/
theorem objFold_aux (kvs : List (String × Json)) :
    ∀ acc, (∀ kv ∈ kvs, acc.any (fun a => a.1 == kv.1) = false) →
      allDistinct (kvs.map (fun kv => kv.1)) = true →
      kvs.foldl (fun acc kv => pySet acc kv.1 kv.2) acc = acc ++ kvs := by
  induction kvs with
  | nil => intro acc _ _; simp
  | cons kv tl ih =>
    intro acc hnotin hnd
    rw [List.foldl_cons, pySet_eq_append acc kv.1 kv.2 (hnotin kv (List.mem_cons_self _ _))]
    rw [List.map_cons] at hnd
    unfold allDistinct at hnd
    rw [Bool.and_eq_true] at hnd
    obtain ⟨hnc, hnd2⟩ := hnd
    rw [Bool.not_eq_true'] at hnc
    rw [ih (acc ++ [kv]) ?_ hnd2]
    · simp
    · intro kv2 hkv2
      rw [List.any_append]
      have h1 := hnotin kv2 (List.mem_cons_of_mem _ hkv2)
      have h2 : (kv.1 == kv2.1) = false := by
        rw [beq_eq_false_iff_ne]
        intro heq
        have hmem : List.elem kv.1 (tl.map (fun kv => kv.1)) = true :=
          List.elem_iff.mpr (heq ▸ List.mem_map_of_mem _ hkv2)
        rw [List.contains, hmem] at hnc
        cases hnc
      rw [h1]
      simp [List.any_cons, h2]

/-- Building a dict from members with pairwise-distinct keys keeps them as
they are. -/
theorem objFold_nodup (kvs : List (String × Json))
    (hnd : allDistinct (kvs.map (fun kv => kv.1)) = true) : objFold kvs = kvs := by
  unfold objFold
  have h := objFold_aux kvs [] (fun kv _ => rfl) hnd
  simpa using h

/-- Parsing a serialized inner dict preceded by the key separator's space. -/
theorem parseValue_space_serInner (kvs : List (String × String))
    (hplain : ∀ ut ∈ kvs, plainStr ut.1 = true ∧ plainStr ut.2 = true)
    (hnd : allDistinct (kvs.map (fun ut => ut.1)) = true)
    (f : Nat) (hf : kvs.length + 2 ≤ f) (rest : Chars) :
    parseValue f (' ' :: (serInner kvs ++ rest)) =
      some (.obj (kvs.map (fun ut => (ut.1, Json.str ut.2))), rest) := by
  obtain ⟨f1, rfl⟩ : ∃ f1, f = f1 + 1 := ⟨f - 1, by omega⟩
  cases kvs with
  | nil =>
    simp only [serInner, List.cons_append, List.nil_append]
    simp only [parseValue, skipWs_space, skipWs_lbrace, skipWs_rbrace, List.map_nil]
  | cons ut tl =>
    have hsh : serInner (ut :: tl) ++ rest =
        '{' :: ('\n' :: (serInnerTail (ut :: tl) ++ rest)) := by
      simp [serInner]
    rw [hsh]
    obtain ⟨X, hsk⟩ : ∃ X, skipWs ('\n' :: (serInnerTail (ut :: tl) ++ rest)) = '"' :: X := by
      obtain ⟨hu, _⟩ := hplain ut (List.mem_cons_self _ _)
      cases tl with
      | nil =>
        rw [show serInnerTail [ut] ++ rest =
          serEntry ut.1 ut.2 ++ ('\n' :: (ind4 ++ ('}' :: rest))) by simp [serInnerTail]]
        rw [serEntry_shape ut.1 ut.2 hu]
        exact ⟨_, rfl⟩
      | cons ut2 tl2 =>
        rw [show serInnerTail (ut :: ut2 :: tl2) ++ rest =
          serEntry ut.1 ut.2 ++ (',' :: '\n' :: (serInnerTail (ut2 :: tl2) ++ rest)) by
            simp [serInnerTail]]
        rw [serEntry_shape ut.1 ut.2 hu]
        exact ⟨_, rfl⟩
    simp only [parseValue, skipWs_space, skipWs_lbrace, hsk]
    rw [parseMembers_serInnerTail (ut :: tl) hplain f1 (by simpa using hf) (by simp) rest]
    have hmid : (some (Json.obj (objFold (List.map (fun ut => (ut.1, Json.str ut.2)) (ut :: tl))),
        rest) : Option (Json × Chars)) =
        some (Json.obj (List.map (fun ut => (ut.1, Json.str ut.2)) (ut :: tl)), rest) := by
      rw [objFold_nodup _ (by
        rw [show (List.map (fun ut => (ut.1, Json.str ut.2)) (ut :: tl)).map
          (fun kv => kv.1) = (ut :: tl).map (fun ut => ut.1) by simp]
        exact hnd)]
    exact Eq.trans rfl hmid

/-- The character shape of one serialized product line up to its inner dict. -/
theorem serProd_shape (p : String) (kvs : List (String × String)) (hp : plainStr p = true)
    (z : Chars) :
    serProd p kvs ++ z =
      ' ' :: ' ' :: ' ' :: ' ' ::
        ('"' :: (p.data ++ ('"' :: (':' :: ' ' :: (serInner kvs ++ z))))) := by
  simp [serProd, ind4, qstr, escape_plain p hp]

/-- Parsing the last serialized product of the record, up to the top-level
closing brace. -/
theorem parseMembers_lastProd (f : Nat) (p : String) (kvs : List (String × String))
    (hp : plainStr p = true)
    (hplain : ∀ ut ∈ kvs, plainStr ut.1 = true ∧ plainStr ut.2 = true)
    (hnd : allDistinct (kvs.map (fun ut => ut.1)) = true)
    (hf : kvs.length + 2 ≤ f) (rest : Chars) :
    parseMembers (f + 1) ('\n' :: (serProd p kvs ++ ('\n' :: ('}' :: rest)))) =
      some ([(p, Json.obj (kvs.map (fun ut => (ut.1, Json.str ut.2))))], rest) := by
  have hp' : p.data.all plainChar = true := hp
  rw [serProd_shape p kvs hp]
  simp only [parseMembers, skipWs_newline, skipWs_space, skipWs_quote, skipWs_colon,
    skipWs_rbrace, List.cons_append, List.nil_append, parseStrBody_plain, hp']
  rw [parseValue_space_serInner kvs hplain hnd f hf ('\n' :: ('}' :: rest))]
  rfl

/-- Parsing a non-final serialized product steps to the remaining products. -/
theorem parseMembers_midProd (f : Nat) (p : String) (kvs : List (String × String))
    (hp : plainStr p = true)
    (hplain : ∀ ut ∈ kvs, plainStr ut.1 = true ∧ plainStr ut.2 = true)
    (hnd : allDistinct (kvs.map (fun ut => ut.1)) = true)
    (hf : kvs.length + 2 ≤ f) (z : Chars) :
    parseMembers (f + 1) ('\n' :: (serProd p kvs ++ (',' :: '\n' :: z))) =
      match parseMembers f ('\n' :: z) with
      | some (l, r) => some ((p, Json.obj (kvs.map (fun ut => (ut.1, Json.str ut.2)))) :: l, r)
      | none => none := by
  have hp' : p.data.all plainChar = true := hp
  rw [serProd_shape p kvs hp]
  simp only [parseMembers, skipWs_newline, skipWs_space, skipWs_quote, skipWs_colon,
    skipWs_comma, List.cons_append, List.nil_append, parseStrBody_plain, hp']
  rw [parseValue_space_serInner kvs hplain hnd f hf (',' :: '\n' :: z)]
  rfl

/-- Parsing all serialized products of a non-empty record, up to the closing
brace in column zero. -/
theorem parseMembers_serTopTail (r : Record) :
    (∀ pi ∈ r, plainStr pi.1 = true ∧ ∀ ut ∈ pi.2, plainStr ut.1 = true ∧ plainStr ut.2 = true) →
    (∀ pi ∈ r, allDistinct (pi.2.map (fun ut => ut.1)) = true) →
    ∀ (f : Nat), r.length + (r.map (fun pi => pi.2.length)).sum + 2 ≤ f → r ≠ [] →
      ∀ (rest : Chars),
      parseMembers f ('\n' :: (serTopTail r ++ rest)) =
        some (r.map (fun pi =>
          (pi.1, Json.obj (pi.2.map (fun ut => (ut.1, Json.str ut.2))))), rest) := by
  induction r with
  | nil => intro _ _ f _ hne _; exact absurd rfl hne
  | cons pi tl ih =>
    intro hplain hnd f hf _ rest
    obtain ⟨hp, hpin⟩ := hplain pi (List.mem_cons_self _ _)
    have hndp := hnd pi (List.mem_cons_self _ _)
    have hsum : (pi :: tl).length + ((pi :: tl).map (fun pi => pi.2.length)).sum =
        tl.length + (tl.map (fun pi => pi.2.length)).sum + pi.2.length + 1 := by
      simp
      omega
    obtain ⟨f1, rfl⟩ : ∃ f1, f = f1 + 1 := ⟨f - 1, by omega⟩
    cases tl with
    | nil =>
      have hsh : serTopTail [pi] ++ rest = serProd pi.1 pi.2 ++ ('\n' :: ('}' :: rest)) := by
        simp [serTopTail]
      rw [hsh, parseMembers_lastProd f1 pi.1 pi.2 hp hpin hndp (by omega) rest]
      rfl
    | cons pi2 tl2 =>
      have hsh : serTopTail (pi :: pi2 :: tl2) ++ rest =
          serProd pi.1 pi.2 ++ (',' :: '\n' :: (serTopTail (pi2 :: tl2) ++ rest)) := by
        simp [serTopTail]
      rw [hsh, parseMembers_midProd f1 pi.1 pi.2 hp hpin hndp (by omega) _]
      have hih := ih (fun x hx => hplain x (List.mem_cons_of_mem _ hx))
        (fun x hx => hnd x (List.mem_cons_of_mem _ hx)) f1 (by
          have : ((pi2 :: tl2).map (fun pi => pi.2.length)).sum ≤
              ((pi :: pi2 :: tl2).map (fun pi => pi.2.length)).sum := by
            simp
          simp only [List.length_cons] at hf ⊢
          omega) (by simp) rest
      rw [hih]
      rfl

/-- A serialized entry line is never empty. -/
theorem serEntry_length (u t : String) : 1 ≤ (serEntry u t).length := by
  unfold serEntry ind8 qstr
  simp [List.length_append]

/-- The serialized inner entries are at least as long as the entry count. -/
theorem serInnerTail_length (kvs : List (String × String)) (hne : kvs ≠ []) :
    kvs.length ≤ (serInnerTail kvs).length := by
  induction kvs with
  | nil => exact absurd rfl hne
  | cons ut tl ih =>
    have he := serEntry_length ut.1 ut.2
    cases tl with
    | nil =>
      have h2 : (serInnerTail [ut]).length = (serEntry ut.1 ut.2).length + 6 := by
        simp [serInnerTail, ind4]
      simp only [List.length_cons, List.length_nil, h2]
      omega
    | cons ut2 tl2 =>
      have hih := ih (by simp)
      simp only [serInnerTail, List.length_append, List.length_cons] at hih ⊢
      omega

/-- A serialized inner dict is at least as long as its entry count. -/
theorem serInner_length (kvs : List (String × String)) :
    kvs.length ≤ (serInner kvs).length := by
  cases kvs with
  | nil => simp [serInner]
  | cons ut tl =>
    have h := serInnerTail_length (ut :: tl) (by simp)
    simp only [serInner, List.length_cons] at h ⊢
    omega

/-- A serialized product line is longer than its inner entry count. -/
theorem serProd_length (p : String) (kvs : List (String × String)) :
    kvs.length + 1 ≤ (serProd p kvs).length := by
  have h := serInner_length kvs
  unfold serProd ind4 qstr
  simp only [List.length_append, List.length_cons]
  simp
  omega

/-- The serialized top-level entries are at least as long as the total count
of products and URLs. -/
theorem serTopTail_length (r : Record) (hne : r ≠ []) :
    r.length + (r.map (fun pi => pi.2.length)).sum ≤ (serTopTail r).length := by
  induction r with
  | nil => exact absurd rfl hne
  | cons pi tl ih =>
    have hp := serProd_length pi.1 pi.2
    cases tl with
    | nil =>
      have h2 : (serTopTail [pi]).length = (serProd pi.1 pi.2).length + 2 := by
        simp [serTopTail]
      simp only [List.length_cons, List.length_nil, List.map_cons, List.map_nil,
        List.sum_cons, List.sum_nil, h2]
      omega
    | cons pi2 tl2 =>
      have hih := ih (by simp)
      simp only [serTopTail, List.length_append, List.length_cons, List.map_cons,
        List.sum_cons] at hih ⊢
      omega

/-- Parsing a whole serialized non-empty record consumes it exactly. -/
theorem parseValue_serRecord (r : Record)
    (hplain : ∀ pi ∈ r, plainStr pi.1 = true ∧
      ∀ ut ∈ pi.2, plainStr ut.1 = true ∧ plainStr ut.2 = true)
    (hnd : ∀ pi ∈ r, allDistinct (pi.2.map (fun ut => ut.1)) = true)
    (hndout : allDistinct (r.map (fun pi => pi.1)) = true)
    (hne : r ≠ []) (f : Nat)
    (hf : r.length + (r.map (fun pi => pi.2.length)).sum + 3 ≤ f) :
    parseValue f ('{' :: ('\n' :: serTopTail r)) = some (recordToJson r, []) := by
  obtain ⟨f1, rfl⟩ : ∃ f1, f = f1 + 1 := ⟨f - 1, by omega⟩
  obtain ⟨pi, tl, rfl⟩ : ∃ pi tl, r = pi :: tl := by
    cases r with
    | nil => exact absurd rfl hne
    | cons pi tl => exact ⟨pi, tl, rfl⟩
  obtain ⟨T, hT⟩ : ∃ T, serTopTail (pi :: tl) = serProd pi.1 pi.2 ++ T := by
    cases tl with
    | nil => exact ⟨_, rfl⟩
    | cons pi2 tl2 => exact ⟨_, rfl⟩
  obtain ⟨hp, _⟩ := hplain pi (List.mem_cons_self _ _)
  obtain ⟨X, hsk⟩ : ∃ X, skipWs ('\n' :: serTopTail (pi :: tl)) = '"' :: X := by
    rw [hT, serProd_shape pi.1 pi.2 hp]
    exact ⟨_, rfl⟩
  simp only [parseValue, skipWs_lbrace, hsk]
  have hpm := parseMembers_serTopTail (pi :: tl) hplain hnd f1 (by
    simp only [List.length_cons, List.map_cons, List.sum_cons] at hf ⊢
    omega) (by simp) []
  rw [List.append_nil] at hpm
  have hmid : (match parseMembers f1 ('\n' :: serTopTail (pi :: tl)) with
      | some (kvs, r2) => some (Json.obj (objFold kvs), r2)
      | none => none) = some (recordToJson (pi :: tl), ([] : Chars)) := by
    rw [hpm]
    show some (Json.obj (objFold ((pi :: tl).map (fun pi =>
      (pi.1, Json.obj (pi.2.map (fun ut => (ut.1, Json.str ut.2))))))), ([] : Chars)) = _
    rw [objFold_nodup _ (by
      rw [show ((pi :: tl).map (fun pi =>
        (pi.1, Json.obj (pi.2.map (fun ut => (ut.1, Json.str ut.2)))))).map
        (fun kv => kv.1) = (pi :: tl).map (fun pi => pi.1) by simp]
      exact hndout)]
    rfl
  exact Eq.trans rfl hmid

/-- Saving a record and parsing the saved text yields exactly the record's
JSON value. -/
theorem parseJson_save_data (r : Record) (hplain : plainRecord r = true)
    (hnd : nodupRecord r = true) :
    parseJson (save_data r) = some (recordToJson r) := by
  have hplain2 : ∀ pi ∈ r, plainStr pi.1 = true ∧
      ∀ ut ∈ pi.2, plainStr ut.1 = true ∧ plainStr ut.2 = true := by
    intro pi hpi
    unfold plainRecord at hplain
    have h1 := List.all_eq_true.mp hplain pi hpi
    rw [Bool.and_eq_true] at h1
    refine ⟨h1.1, fun ut hut => ?_⟩
    have h2 := List.all_eq_true.mp h1.2 ut hut
    rw [Bool.and_eq_true] at h2
    exact h2
  unfold nodupRecord at hnd
  rw [Bool.and_eq_true] at hnd
  have hnd2 : ∀ pi ∈ r, allDistinct (pi.2.map (fun ut => ut.1)) = true :=
    fun pi hpi => List.all_eq_true.mp hnd.2 pi hpi
  cases r with
  | nil => rfl
  | cons pi tl =>
    have hne : (pi :: tl : Record) ≠ [] := by simp
    have hdata : (save_data (pi :: tl)).data = '{' :: ('\n' :: serTopTail (pi :: tl)) := by
      unfold save_data
      rw [stringMk_data]
      simp [serRecord]
    have hlen : (save_data (pi :: tl)).length = (serTopTail (pi :: tl)).length + 2 := by
      unfold save_data
      show (serRecord (pi :: tl)).length = _
      simp [serRecord]
    have hbound : (pi :: tl : Record).length +
        ((pi :: tl).map (fun pi => pi.2.length)).sum + 3 ≤ (save_data (pi :: tl)).length + 2 := by
      have h := serTopTail_length (pi :: tl) hne
      rw [hlen]
      omega
    unfold parseJson
    rw [hdata, parseValue_serRecord (pi :: tl) hplain2 hnd2 hnd.1 hne _ hbound]
    rfl

/-- C7: loading what `save_data` wrote returns the record's JSON value with
every product, URL and timestamp unchanged. -/
theorem c7_load_after_save (r : Record) (hplain : plainRecord r = true)
    (hnd : nodupRecord r = true) :
    load_existing_data (some (save_data r)) = recordToJson r := by
  have heq : load_existing_data (some (save_data r)) =
      (match parseJson (save_data r) with
        | some j => j
        | none => Json.obj []) := rfl
  rw [heq, parseJson_save_data r hplain hnd]

/-- Witness for C7 at a concrete one-product record. -/
theorem c7_load_after_save_witness :
    plainRecord [("Win10", [("u", "2021-01-01T00:00:00")])] = true ∧
    nodupRecord [("Win10", [("u", "2021-01-01T00:00:00")])] = true ∧
    load_existing_data (some (save_data [("Win10", [("u", "2021-01-01T00:00:00")])])) =
      recordToJson [("Win10", [("u", "2021-01-01T00:00:00")])] :=
  ⟨by decide, by decide, c7_load_after_save _ (by decide) (by decide)⟩

/-- The exact pretty-printed four-space-indented form `save_data` writes for a
sample record. -/
theorem save_data_pretty_printed_sample :
    save_data [("Win10", [("u1", "t1"), ("u2", "t2")]), ("Win11", [])] =
      "\x7b\n    \"Win10\": \x7b\n        \"u1\": \"t1\",\n        \"u2\": \"t2\"\n    \x7d,\n    \"Win11\": \x7b\x7d\n\x7d" := rfl

end Esdtracker
